import Mathlib

/-!
Multi-dimensional views over a flat buffer (`vector/vector_extent.h`)

A shallow embedding of `vec::detail::extent<T, Dimensions>` and of its
specialisation `extent<T, 1u>`.

* A pointer `T *` is an element address, a natural number; memory maps every
  element address to the value stored there.
* `std::size_t` is a 64-bit unsigned integer: arithmetic on it is reduced
  modulo `2 ^ 64`.
* A member function that can throw or hit an `assert` returns `Except failure _`.
  The flag `ndebug` says whether `NDEBUG` is defined (asserts compiled out).
-/

set_option autoImplicit false

namespace vec.detail

/-! ## Machine model -/

/-- Number of values of `std::size_t`. -/
def size_type_mod : Nat := 2 ^ 64

/-- Flat memory of elements of type `T`, indexed by element address. -/
def Mem (T : Type) : Type := Nat → T

/-- Store `x` at address `p`. -/
def Mem.write {T : Type} (mem : Mem T) (p : Nat) (x : T) : Mem T :=
  fun q => if q = p then x else mem q

/-- Memory holding the list `xs` from address `base` on, and `dflt` elsewhere. -/
def Mem.ofList {T : Type} (base : Nat) (xs : List T) (dflt : T) : Mem T :=
  fun q => if base ≤ q then xs.getD (q - base) dflt else dflt

/-- The `n` elements stored from address `p` on. -/
def Mem.block {T : Type} (mem : Mem T) (p n : Nat) : List T :=
  (List.range n).map fun k => mem (p + k)

/-- Abnormal ends of a call: a thrown `std::out_of_range`, or a failed `assert`. -/
inductive failure where
  | out_of_range
  | assertion_failed
  deriving DecidableEq, Repr

/-- Conversion of an integral value to `std::size_t`. -/
def to_size_type (u : Int) : Nat := (u % (size_type_mod : Int)).toNat

/-! ## Standard algorithms used by the header -/

/-- Loop of `std::copy(first, last, d_first)` over memory, `n = last - first` steps
left: `*d_first++ = *first++`. -/
def copy_loop {T : Type} : Nat → Nat → Nat → Mem T → Mem T
  | 0, _, _, mem => mem
  | n + 1, first, d_first, mem =>
      copy_loop n (first + 1) (d_first + 1) (mem.write d_first (mem first))

/-- The call `std::copy(first, last, d_first)` between two memory ranges: elements
are copied in order from `first` on (the standard leaves the call undefined when
`d_first` lies in `[first, last)`). -/
def std_copy {T : Type} (first last d_first : Nat) (mem : Mem T) : Mem T :=
  copy_loop (last - first) first d_first mem

/-- The call `std::copy(values.begin(), values.end(), d_first)` from an
initializer list into memory. -/
def std_copy_list {T : Type} : List T → Nat → Mem T → Mem T
  | [], _, mem => mem
  | x :: values, d_first, mem => std_copy_list values (d_first + 1) (mem.write d_first x)

/-- Loop of `std::equal(first1, last1, first2)` over memory, `n = last1 - first1`
steps left: the first mismatch returns false. -/
def equal_loop {T : Type} [BEq T] (mem : Mem T) : Nat → Nat → Nat → Bool
  | 0, _, _ => true
  | n + 1, first1, first2 =>
      if mem first1 == mem first2 then equal_loop mem n (first1 + 1) (first2 + 1) else false

/-- The call `std::equal(first1, last1, first2)` between two memory ranges. -/
def std_equal {T : Type} [BEq T] (mem : Mem T) (first1 last1 first2 : Nat) : Bool :=
  equal_loop mem (last1 - first1) first1 first2

/-- The call `std::equal(std::begin(a), std::end(a), std::begin(b))` on two arrays of
`std::size_t`. -/
def std_equal_array : List Nat → List Nat → Bool
  | [], _ => true
  | x :: a, y :: b => if x = y then std_equal_array a b else false
  | _ :: _, [] => false

/-- Loop of the four-iterator `std::equal` against a `std::vector`, `n` steps left,
`k` the position reached in the vector. A read past the end of the vector gives
`none`. -/
def equal_vector_loop {T : Type} [BEq T] (mem : Mem T) (w : List T) :
    Nat → Nat → Nat → Option Bool
  | 0, _, _ => some true
  | n + 1, first1, k =>
      match w.get? k with
      | none => none
      | some x => if mem first1 == x then equal_vector_loop mem w n (first1 + 1) (k + 1)
                  else some false

/-- The call `std::equal(first1, last1, w.begin(), w.end())` on random-access
iterators: ranges of different length are unequal without any element read. -/
def std_equal_vector {T : Type} [BEq T] (mem : Mem T) (first1 last1 : Nat) (w : List T) :
    Option Bool :=
  if last1 - first1 ≠ w.length then some false
  else equal_vector_loop mem w (last1 - first1) first1 0

/-- The loop `for (; from != to; ++from, ++dst) { *dst = *from; }` of `const_copy`,
copying integral values into an array of `std::size_t`. -/
def const_copy : List Int → List Nat → List Nat
  | [], dst => dst
  | u :: src, _ :: dst => to_size_type u :: const_copy src dst
  | _ :: _, [] => []

/-! ## The class template `extent<T, Dimensions>` -/

/-- The data members of `extent<T, Dimensions>`: `m_data` and the array
`std::size_t m_shape[Dimensions]`. -/
structure extent (T : Type) (Dimensions : Nat) where
  m_data : Nat
  m_shape : List Nat
  shape_length : m_shape.length = Dimensions
  shape_range : ∀ x ∈ m_shape, x < size_type_mod

/-- The loop `for (idx = Dimensions - 1; idx > 0; --idx) { acc *= m_shape[idx]; }`
entered with loop variable `idx` and accumulator `acc`. -/
def mul_loop (m_shape : List Nat) : Nat → Nat → Nat
  | 0, acc => acc
  | idx + 1, acc => mul_loop m_shape idx (acc * m_shape.getD (idx + 1) 0 % size_type_mod)

/-- The private constructors `extent(T * ptr, const std::size_t * shape)`: the
specialisation keeps `shape[0]`, the primary template copies `Dimensions` extents
(`std::copy_n`). `shape` is the array the pointer points into. -/
def extent.from_pointer {T : Type} : (Dimensions : Nat) → (ptr : Nat) → (shape : List Nat) →
    Dimensions ≤ shape.length → (∀ x ∈ shape, x < size_type_mod) → extent T Dimensions
  | 0, ptr, _, _, _ => ⟨ptr, [], rfl, by simp⟩
  | 1, ptr, shape, _, hr =>
      ⟨ptr, [shape.getD 0 0], rfl, by
        intro x hx
        rw [List.mem_singleton] at hx
        subst hx
        cases shape with
        | nil => simp [size_type_mod]
        | cons y ys => exact hr _ (by simp)⟩
  | D + 2, ptr, shape, hl, hr =>
      ⟨ptr, shape.take (D + 2), by simpa using hl,
        fun x hx => hr x (List.mem_of_mem_take hx)⟩

/-- The public constructor `extent(T * ptr, const U (&shape)[Dimensions])` of the
primary template: `m_shape` starts zeroed and `const_copy` fills it. -/
def extent.ctor {T : Type} {Dimensions : Nat} (ptr : Nat) (shape : List Int)
    (h : shape.length = Dimensions) : extent T Dimensions :=
  ⟨ptr, const_copy shape (List.replicate Dimensions 0), by
    have key : ∀ (src : List Int) (dst : List Nat), src.length = dst.length →
        (const_copy src dst).length = dst.length := by
      intro src
      induction src with
      | nil => intro dst _; rfl
      | cons u src ih =>
        intro dst hd
        cases dst with
        | nil => simp at hd
        | cons d dst => simp [const_copy, ih dst (by simpa using hd)]
    rw [key _ _ (by simp [h])]; simp, by
    have key : ∀ (src : List Int) (dst : List Nat), (∀ x ∈ dst, x < size_type_mod) →
        ∀ x ∈ const_copy src dst, x < size_type_mod := by
      intro src
      induction src with
      | nil => intro dst hd; exact hd
      | cons u src ih =>
        intro dst hd
        cases dst with
        | nil => simp [const_copy]
        | cons d dst =>
          intro x hx
          simp only [const_copy, List.mem_cons] at hx
          rcases hx with hx | hx
          · subst hx
            have hpos : (0 : Int) < (size_type_mod : Int) := by simp [size_type_mod]
            have h1 := Int.emod_lt_of_pos u hpos
            have h0 := Int.emod_nonneg u (ne_of_gt hpos)
            unfold to_size_type
            omega
          · exact ih dst (fun y hy => hd y (List.mem_cons_of_mem _ hy)) x hx
    exact key _ _ (by intro x hx; rw [List.eq_of_mem_replicate hx]; simp [size_type_mod])⟩

/-- The public constructor `extent(T * ptr, const U (&shape)[1u])` of the
specialisation, with its `assert(shape[0] >= 0)`. -/
def extent1.ctor {T : Type} (ndebug : Bool) (ptr : Nat) (shape : List Int)
    (_h : shape.length = 1) : Except failure (extent T 1) :=
  if ndebug || decide (0 ≤ shape.getD 0 0) then
    .ok ⟨ptr, [to_size_type (shape.getD 0 0)], rfl, by
      intro x hx
      rw [List.mem_singleton] at hx
      subst hx
      have hpos : (0 : Int) < (size_type_mod : Int) := by simp [size_type_mod]
      have h1 := Int.emod_lt_of_pos (shape.getD 0 0) hpos
      have h0 := Int.emod_nonneg (shape.getD 0 0) (ne_of_gt hpos)
      unfold to_size_type
      omega⟩
  else .error .assertion_failed

namespace extent

variable {T : Type} {Dimensions : Nat}

/-- Member `size()`. -/
def size (self : extent T Dimensions) : Nat := self.m_shape.getD 0 0

/-- Member `max_size()`. -/
def max_size (_self : extent T Dimensions) : Nat := size_type_mod - 1

/-- Member `empty()`. -/
def empty (_self : extent T Dimensions) : Bool := false

/-- Member `data()`. -/
def data (self : extent T Dimensions) : Nat := self.m_data

/-- Member `shape()`. -/
def shape (self : extent T Dimensions) : List Nat := self.m_shape

/-- Member `flat_size()`. -/
def flat_size (self : extent T Dimensions) : Nat :=
  mul_loop self.m_shape (Dimensions - 1) (self.m_shape.getD 0 0)

/-- Member `operator[]`: the child view `value_type(m_data + extentSize * pos, &m_shape[1])`. -/
def operator_index (self : extent T Dimensions) (pos : Nat) : extent T (Dimensions - 1) :=
  let extentSize := mul_loop self.m_shape (Dimensions - 1) 1
  extent.from_pointer (Dimensions - 1) (self.m_data + extentSize * pos % size_type_mod)
    (self.m_shape.drop 1) (by simp [self.shape_length])
    (fun x hx => self.shape_range x (List.mem_of_mem_drop hx))

/-- Member `at`. -/
def at_ (self : extent T Dimensions) (pos : Nat) : Except failure (extent T (Dimensions - 1)) :=
  if ¬ (pos < self.m_shape.getD 0 0) then .error .out_of_range
  else .ok (self.operator_index pos)

/-- Member `assign(std::initializer_list<T>)`; returns the memory and `*this` after
the call. -/
def assign (ndebug : Bool) (self : extent T Dimensions) (values : List T) (mem : Mem T) :
    Except failure (Mem T × extent T Dimensions) :=
  if ndebug || self.flat_size == values.length then
    .ok (std_copy_list values self.m_data mem, self)
  else .error .assertion_failed

/-- Member `operator=(std::initializer_list<T>)`. -/
def operator_assign_list (ndebug : Bool) (self : extent T Dimensions) (values : List T)
    (mem : Mem T) : Except failure (Mem T × extent T Dimensions) :=
  match self.assign ndebug values mem with
  | .ok (mem', self') => .ok (mem', self')
  | .error e => .error e

/-- Member `operator=(const extent &)`; returns the memory, `*this` and `other`
after the call. The assertion `m_shape == other.m_shape` compares the two arrays
after array-to-pointer conversion, that is the addresses `this_shape` and
`other_shape` at which the two arrays are stored. -/
def operator_assign (ndebug : Bool) (this_shape other_shape : Nat)
    (self other : extent T Dimensions) (mem : Mem T) :
    Except failure (Mem T × extent T Dimensions × extent T Dimensions) :=
  if ndebug || this_shape == other_shape then
    .ok (std_copy other.m_data (other.m_data + self.flat_size) self.m_data mem, self, other)
  else .error .assertion_failed

end extent

/-! ## The specialisation `extent<T, 1u>` -/

namespace extent1

variable {T : Type}

/-- Member `size()`. -/
def size (self : extent T 1) : Nat := self.m_shape.getD 0 0

/-- Member `max_size()`. -/
def max_size (_self : extent T 1) : Nat := size_type_mod - 1

/-- Member `empty()`. -/
def empty (_self : extent T 1) : Bool := false

/-- Member `data()`. -/
def data (self : extent T 1) : Nat := self.m_data

/-- Member `shape()`. -/
def shape (self : extent T 1) : List Nat := self.m_shape

/-- Member `flat_size()`. -/
def flat_size (self : extent T 1) : Nat := self.m_shape.getD 0 0

/-- Member `begin()`. -/
def begin_ (self : extent T 1) : Nat := self.m_data

/-- Member `end()`. -/
def end_ (self : extent T 1) : Nat := self.m_data + self.m_shape.getD 0 0

/-- Member `operator[]`: the reference `m_data[pos]`, as the address it refers to. -/
def operator_index (self : extent T 1) (pos : Nat) : Nat := self.m_data + pos

/-- Member `at`. -/
def at_ (self : extent T 1) (pos : Nat) : Except failure Nat :=
  if ¬ (pos < self.m_shape.getD 0 0) then .error .out_of_range
  else .ok (operator_index self pos)

/-- Member `front()`. -/
def front (self : extent T 1) : Nat := self.m_data + 0

/-- Member `back()`: `m_shape[0] - 1` is computed in `std::size_t`. -/
def back (self : extent T 1) : Nat :=
  self.m_data + (self.m_shape.getD 0 0 + size_type_mod - 1) % size_type_mod

/-- Member `assign(std::initializer_list<T>)`. -/
def assign (ndebug : Bool) (self : extent T 1) (values : List T) (mem : Mem T) :
    Except failure (Mem T × extent T 1) :=
  if ndebug || flat_size self == values.length then
    .ok (std_copy_list values self.m_data mem, self)
  else .error .assertion_failed

/-- Member `operator=(std::initializer_list<T>)`. -/
def operator_assign_list (ndebug : Bool) (self : extent T 1) (values : List T)
    (mem : Mem T) : Except failure (Mem T × extent T 1) :=
  match assign ndebug self values mem with
  | .ok (mem', self') => .ok (mem', self')
  | .error e => .error e

/-- Member `operator=(const extent &)`, see `extent.operator_assign`. -/
def operator_assign (ndebug : Bool) (this_shape other_shape : Nat)
    (self other : extent T 1) (mem : Mem T) :
    Except failure (Mem T × extent T 1 × extent T 1) :=
  if ndebug || this_shape == other_shape then
    .ok (std_copy other.m_data (other.m_data + flat_size self) self.m_data mem, self, other)
  else .error .assertion_failed

end extent1

/-! ## Free functions and chained subscripts -/

section free
variable {T : Type}

/-- The template `operator==(const extent<T, Dimensions> &, const extent<T, Dimensions> &)`,
instantiated with the specialisation for `Dimensions = 1` and with the primary
template otherwise. -/
def operator_eq [BEq T] : {Dimensions : Nat} → extent T Dimensions → extent T Dimensions →
    Mem T → Bool
  | 1, lhs, rhs, mem =>
      std_equal_array (extent1.shape lhs) (extent1.shape rhs) &&
        std_equal mem (extent1.data lhs) (extent1.data lhs + extent1.flat_size lhs)
          (extent1.data rhs)
  | _, lhs, rhs, mem =>
      std_equal_array lhs.shape rhs.shape &&
        std_equal mem lhs.data (lhs.data + lhs.flat_size) rhs.data

/-- The template `operator!=` on two views. -/
def operator_ne [BEq T] {Dimensions : Nat} (lhs rhs : extent T Dimensions) (mem : Mem T) :
    Bool :=
  !(operator_eq lhs rhs mem)

/-- The function `operator==(const extent<T, 1u> &, const std::vector<T, Alloc> &)`; `none`
stands for a read past the end of the vector. -/
def operator_eq_extent_vector [BEq T] (lhs : extent T 1) (rhs : List T) (mem : Mem T) :
    Option Bool :=
  std_equal_vector mem (extent1.data lhs) (extent1.data lhs + extent1.size lhs) rhs

/-- The function `operator==(const std::vector<T, Alloc> &, const extent<T, 1u> &)`. -/
def operator_eq_vector_extent [BEq T] (lhs : List T) (rhs : extent T 1) (mem : Mem T) :
    Option Bool :=
  operator_eq_extent_vector rhs lhs mem

/-- The function `operator!=(const extent<T, 1u> &, const std::vector<T, Alloc> &)`. -/
def operator_ne_extent_vector [BEq T] (lhs : extent T 1) (rhs : List T) (mem : Mem T) :
    Option Bool :=
  (operator_eq_extent_vector lhs rhs mem).map (! ·)

/-- The function `operator!=(const std::vector<T, Alloc> &, const extent<T, 1u> &)`. -/
def operator_ne_vector_extent [BEq T] (lhs : List T) (rhs : extent T 1) (mem : Mem T) :
    Option Bool :=
  (operator_eq_extent_vector rhs lhs mem).map (! ·)

/-- The call `v.flat_size()`, resolved by the dimension of `v`. -/
def flat_size : {Dimensions : Nat} → extent T Dimensions → Nat
  | 1, v => extent1.flat_size v
  | _, v => extent.flat_size v

/-- The assignment `a = b` of two views, resolved by their dimension. -/
def assign_view : {Dimensions : Nat} → Bool → Nat → Nat → extent T Dimensions →
    extent T Dimensions → Mem T →
    Except failure (Mem T × extent T Dimensions × extent T Dimensions)
  | 1, ndebug, this_shape, other_shape, a, b, mem =>
      extent1.operator_assign ndebug this_shape other_shape a b mem
  | _, ndebug, this_shape, other_shape, a, b, mem =>
      extent.operator_assign ndebug this_shape other_shape a b mem

/-- The assignment `v = values` of an initializer list, resolved by the dimension
of `v`. -/
def assign_list : {Dimensions : Nat} → Bool → extent T Dimensions → List T → Mem T →
    Except failure (Mem T × extent T Dimensions)
  | 1, ndebug, v, values, mem => extent1.operator_assign_list ndebug v values mem
  | _, ndebug, v, values, mem => extent.operator_assign_list ndebug v values mem

/-- The chained access `v[i0][i1]...[i(N-1)]` for the index tuple `idx`: the address
of the element it refers to. -/
def subscript : (Dimensions : Nat) → extent T Dimensions → List Nat → Nat
  | 0, v, _ => v.m_data
  | 1, v, idx => extent1.operator_index v (idx.getD 0 0)
  | D + 2, v, idx => subscript (D + 1) (extent.operator_index v (idx.getD 0 0)) (idx.drop 1)

/-- Row-major flat offset of the index tuple `idx` in a block of shape `shape`:
the sum over `k` of `idx[k] * product(shape[k+1..N))`. -/
def flat_offset (shape idx : List Nat) : Nat :=
  ((List.range shape.length).map fun k => idx.getD k 0 * (shape.drop (k + 1)).prod).sum

/-- The extent product of a view is representable in `size_type`. -/
def fits {Dimensions : Nat} (v : extent T Dimensions) : Prop :=
  v.m_shape.prod < size_type_mod

instance {Dimensions : Nat} (v : extent T Dimensions) : Decidable (fits v) :=
  inferInstanceAs (Decidable (v.m_shape.prod < size_type_mod))

end free

/-- The 12-element buffer `0..11` of the tests, stored from address 0 on. -/
def data12 : Mem Int := Mem.ofList 0 [0, 1, 2, 3, 4, 5, 6, 7, 8, 9, 10, 11] 0

/-- The view of shape 3 by 4 over `data12`, as constructed in the tests. -/
def obj34 : extent Int 2 := ⟨0, [3, 4], rfl, by decide⟩

/-- The view of shape 4 by 3 over `data12`, `objC` of the comparison test. -/
def obj43 : extent Int 2 := ⟨0, [4, 3], rfl, by decide⟩

/-- Row 1 of `obj34`, a 1-D view of 4 elements at offset 4. -/
def row1 : extent Int 1 := ⟨4, [4], rfl, by decide⟩

/-- Elements 0..2 of a small buffer, for the overlapping views `viewA3`, `viewB3`. -/
def data3 : Mem Int := Mem.ofList 0 [1, 2, 3] 0

/-- A 1-D view of 2 elements at offset 0 of `data3`. -/
def viewA3 : extent Int 1 := ⟨0, [2], rfl, by decide⟩

/-- A 1-D view of 2 elements at offset 1 of `data3`. -/
def viewB3 : extent Int 1 := ⟨1, [2], rfl, by decide⟩

/-- The buffers `dataA` and `dataB` of the assignment test, stored one after the
other: `dataA` at addresses 0..11, `dataB` at addresses 12..23. -/
def dataAB : Mem Int :=
  Mem.ofList 0 [0, 2, 4, 6, 8, 10, 12, 14, 16, 18, 20, 22,
    1, 3, 5, 7, 9, 11, 13, 15, 17, 19, 21, 23] 0

/-- The view `objB` of the assignment test: shape 3 by 4 over `dataB`. -/
def objB34 : extent Int 2 := ⟨12, [3, 4], rfl, by decide⟩

/-- A view whose first extent is zero. -/
def obj04 : extent Int 2 := ⟨0, [0, 4], rfl, by decide⟩

/-- A 1-D view whose only extent is zero. -/
def row0 : extent Int 1 := ⟨0, [0], rfl, by decide⟩

section chains
variable {T : Type}

/-- The chained checked access `v.at(i0).at(i1)...at(i(N-1))` for the index tuple
`idx`: the address of the element reached, or the exception of the first `at` that
throws. -/
def at_chain : (Dimensions : Nat) → extent T Dimensions → List Nat → Except failure Nat
  | 0, v, _ => .ok v.m_data
  | 1, v, idx => extent1.at_ v (idx.getD 0 0)
  | D + 2, v, idx =>
      match extent.at_ v (idx.getD 0 0) with
      | .ok child => at_chain (D + 1) child (idx.drop 1)
      | .error e => .error e

/-- Child-by-child equality of two views of dimension at least 2, in the words of
the specification: `a[i] == b[i]` for every `i < a.size()`. -/
def operator_eq_children [BEq T] {D : Nat} (a b : extent T (D + 2)) (mem : Mem T) : Bool :=
  (List.range a.size).all fun i => operator_eq (a.operator_index i) (b.operator_index i) mem

end chains

/-! ## Memory lemmas -/

theorem write_same {T : Type} (mem : Mem T) (p : Nat) (x : T) : mem.write p x p = x := by
  simp [Mem.write]

theorem write_other {T : Type} (mem : Mem T) (p q : Nat) (x : T) (h : q ≠ p) :
    mem.write p x q = mem q := by
  simp [Mem.write, h]

theorem copy_loop_frame {T : Type} (n first d : Nat) (mem : Mem T) (q : Nat)
    (h : q < d ∨ d + n ≤ q) : copy_loop n first d mem q = mem q := by
  induction n generalizing first d mem with
  | zero => rfl
  | succ n ih =>
    rw [copy_loop, ih _ _ _ (by omega), write_other _ _ _ _ (by omega)]

theorem copy_loop_value {T : Type} (n first d : Nat) (mem : Mem T) (k : Nat) (hk : k < n)
    (h : d ≤ first ∨ first + n ≤ d) : copy_loop n first d mem (d + k) = mem (first + k) := by
  induction n generalizing first d mem k with
  | zero => omega
  | succ n ih =>
    rw [copy_loop]
    cases k with
    | zero =>
      rw [copy_loop_frame _ _ _ _ _ (by omega)]
      exact write_same _ _ _
    | succ k =>
      have := ih (first + 1) (d + 1) (mem.write d (mem first)) k (by omega) (by omega)
      rw [show d + (k + 1) = d + 1 + k by omega, this, write_other _ _ _ _ (by omega)]
      congr 1
      omega

theorem copy_list_frame {T : Type} (values : List T) (d : Nat) (mem : Mem T) (q : Nat)
    (h : q < d ∨ d + values.length ≤ q) : std_copy_list values d mem q = mem q := by
  induction values generalizing d mem with
  | nil => rfl
  | cons x values ih =>
    rw [List.length_cons] at h
    rw [std_copy_list, ih _ _ (by omega), write_other _ _ _ _ (by omega)]

theorem copy_list_value {T : Type} (values : List T) (d : Nat) (mem : Mem T) (k : Nat)
    (hk : k < values.length) :
    std_copy_list values d mem (d + k) = values.get ⟨k, hk⟩ := by
  induction values generalizing d mem k with
  | nil => simp at hk
  | cons x values ih =>
    rw [std_copy_list]
    cases k with
    | zero =>
      rw [copy_list_frame _ _ _ _ (by omega)]
      exact write_same _ _ _
    | succ k =>
      rw [show d + (k + 1) = d + 1 + k by omega, ih (d + 1) _ k (by simpa using hk)]
      rfl

theorem flat_size_generic {T : Type} {D : Nat} (v : extent T D) :
    flat_size v = extent.flat_size v := by
  match D, v with
  | 0, _ => rfl
  | 1, _ => rfl
  | _ + 2, _ => rfl

theorem assign_view_ok {T : Type} {D : Nat} (ndebug : Bool) (ts os : Nat) (a b : extent T D)
    (mem : Mem T) (h : ndebug = true ∨ ts = os) :
    assign_view ndebug ts os a b mem
      = .ok (copy_loop (flat_size a) b.m_data a.m_data mem, a, b) := by
  have hc : (ndebug || ts == os) = true := by
    rcases h with h | h <;> simp [h]
  match D, a, b with
  | 0, a, b =>
    simp only [assign_view, extent.operator_assign, hc, if_true, std_copy, flat_size,
      Nat.add_sub_cancel_left]
  | 1, a, b =>
    simp only [assign_view, extent1.operator_assign, hc, if_true, std_copy, flat_size,
      Nat.add_sub_cancel_left]
  | _ + 2, a, b =>
    simp only [assign_view, extent.operator_assign, hc, if_true, std_copy, flat_size,
      Nat.add_sub_cancel_left]

theorem assign_list_ok {T : Type} {D : Nat} (ndebug : Bool) (v : extent T D)
    (values : List T) (mem : Mem T) (h : ndebug = true ∨ flat_size v = values.length) :
    assign_list ndebug v values mem = .ok (std_copy_list values v.m_data mem, v) := by
  have hc : ∀ n : Nat, (ndebug = true ∨ n = values.length) →
      (ndebug || n == values.length) = true := by
    intro n hn
    rcases hn with hn | hn <;> simp [hn]
  match D, v, h with
  | 0, v, h =>
    simp only [assign_list, extent.operator_assign_list, extent.assign]
    rw [if_pos (hc _ (by simpa [flat_size] using h))]
  | 1, v, h =>
    simp only [assign_list, extent1.operator_assign_list, extent1.assign]
    rw [if_pos (hc _ (by simpa [flat_size] using h))]
  | _ + 2, v, h =>
    simp only [assign_list, extent.operator_assign_list, extent.assign]
    rw [if_pos (hc _ (by simpa [flat_size] using h))]

theorem assign_view_fail {T : Type} {D : Nat} (ts os : Nat) (a b : extent T D)
    (mem : Mem T) (h : ts ≠ os) :
    assign_view false ts os a b mem = .error .assertion_failed := by
  have hc : (false || ts == os) = false := by simp [h]
  match D, a, b with
  | 0, a, b => simp only [assign_view, extent.operator_assign, hc]; rfl
  | 1, a, b => simp only [assign_view, extent1.operator_assign, hc]; rfl
  | _ + 2, a, b => simp only [assign_view, extent.operator_assign, hc]; rfl

theorem assign_list_fail {T : Type} {D : Nat} (v : extent T D) (values : List T)
    (mem : Mem T) (h : flat_size v ≠ values.length) :
    assign_list false v values mem = .error .assertion_failed := by
  have hc : ∀ n : Nat, n ≠ values.length → ¬ ((false || n == values.length) = true) := by
    intro n hn
    simp [hn]
  match D, v, h with
  | 0, v, h =>
    simp only [assign_list, extent.operator_assign_list, extent.assign]
    rw [if_neg (hc _ (by simpa [flat_size] using h))]
  | 1, v, h =>
    simp only [assign_list, extent1.operator_assign_list, extent1.assign]
    rw [if_neg (hc _ (by simpa [flat_size] using h))]
  | _ + 2, v, h =>
    simp only [assign_list, extent.operator_assign_list, extent.assign]
    rw [if_neg (hc _ (by simpa [flat_size] using h))]

theorem assign_view_cases {T : Type} {D : Nat} (ndebug : Bool) (ts os : Nat)
    (a b : extent T D) (mem : Mem T) :
    assign_view ndebug ts os a b mem
        = .ok (copy_loop (flat_size a) b.m_data a.m_data mem, a, b) ∨
      assign_view ndebug ts os a b mem = .error .assertion_failed := by
  by_cases hc : ndebug = true ∨ ts = os
  · exact Or.inl (assign_view_ok _ _ _ _ _ _ hc)
  · have hn : ndebug = false := by
      cases ndebug
      · rfl
      · exact absurd (Or.inl rfl) hc
    subst hn
    exact Or.inr (assign_view_fail _ _ _ _ _ (fun hh => hc (Or.inr hh)))

theorem assign_view_post {T : Type} {D : Nat} (ndebug : Bool) (ts os : Nat)
    (a b : extent T D) (mem mem' : Mem T) (a' b' : extent T D)
    (h : assign_view ndebug ts os a b mem = .ok (mem', a', b')) :
    mem' = copy_loop (flat_size a) b.m_data a.m_data mem ∧ a' = a ∧ b' = b := by
  rcases assign_view_cases ndebug ts os a b mem with hc | hc
  · rw [hc] at h
    injection h with h
    injection h with h1 h
    injection h with h2 h3
    exact ⟨h1.symm, h2.symm, h3.symm⟩
  · rw [hc] at h
    cases h

theorem assign_list_cases {T : Type} {D : Nat} (ndebug : Bool) (v : extent T D)
    (values : List T) (mem : Mem T) :
    assign_list ndebug v values mem = .ok (std_copy_list values v.m_data mem, v) ∨
      assign_list ndebug v values mem = .error .assertion_failed := by
  by_cases hc : ndebug = true ∨ flat_size v = values.length
  · exact Or.inl (assign_list_ok _ _ _ _ hc)
  · have hn : ndebug = false := by
      cases ndebug
      · rfl
      · exact absurd (Or.inl rfl) hc
    subst hn
    exact Or.inr (assign_list_fail _ _ _ (fun hh => hc (Or.inr hh)))

theorem assign_list_post {T : Type} {D : Nat} (ndebug : Bool) (v : extent T D)
    (values : List T) (mem mem' : Mem T) (v' : extent T D)
    (h : assign_list ndebug v values mem = .ok (mem', v')) :
    mem' = std_copy_list values v.m_data mem ∧ v' = v := by
  rcases assign_list_cases ndebug v values mem with hc | hc
  · rw [hc] at h
    injection h with h
    injection h with h1 h2
    exact ⟨h1.symm, h2.symm⟩
  · rw [hc] at h
    cases h

theorem assign_member_cases {T : Type} {D : Nat} (ndebug : Bool) (v : extent T D)
    (values : List T) (mem : Mem T) :
    v.assign ndebug values mem = .ok (std_copy_list values v.m_data mem, v) ∨
      v.assign ndebug values mem = .error .assertion_failed := by
  unfold extent.assign
  split
  · exact Or.inl rfl
  · exact Or.inr rfl

theorem assign_member1_cases {T : Type} (ndebug : Bool) (e : extent T 1)
    (values : List T) (mem : Mem T) :
    extent1.assign ndebug e values mem = .ok (std_copy_list values e.m_data mem, e) ∨
      extent1.assign ndebug e values mem = .error .assertion_failed := by
  unfold extent1.assign
  split
  · exact Or.inl rfl
  · exact Or.inr rfl

/-! ## Arithmetic of the extent loops -/

theorem mul_loop_lt (s : List Nat) (idx acc : Nat) (h : acc < size_type_mod) :
    mul_loop s idx acc < size_type_mod := by
  induction idx generalizing acc with
  | zero => simpa [mul_loop] using h
  | succ idx ih =>
    rw [mul_loop]
    exact ih _ (Nat.mod_lt _ (by simp [size_type_mod]))

theorem mul_loop_mod (s : List Nat) (idx acc : Nat) (h : idx < s.length) :
    mul_loop s idx acc % size_type_mod
      = acc * ((s.drop 1).take idx).prod % size_type_mod := by
  induction idx generalizing acc with
  | zero => simp [mul_loop]
  | succ idx ih =>
    rw [mul_loop, ih _ (by omega)]
    have hg : (s.drop 1)[idx]? = some (s.getD (idx + 1) 0) := by
      have h1 : 1 + idx < s.length := by omega
      rw [List.getElem?_drop, List.getD_eq_getElem?_getD, List.getElem?_eq_getElem h1]
      simp [Nat.add_comm, List.getElem?_eq_getElem h]
    rw [List.take_succ, hg]
    simp only [Option.toList_some, List.prod_append, List.prod_singleton]
    rw [Nat.mod_mul_mod]
    congr 1
    ring

theorem mul_loop_eq (s : List Nat) (idx acc : Nat) (h : idx < s.length)
    (hacc : acc < size_type_mod) :
    mul_loop s idx acc = acc * ((s.drop 1).take idx).prod % size_type_mod := by
  rw [← mul_loop_mod s idx acc h, Nat.mod_eq_of_lt (mul_loop_lt s idx acc hacc)]

theorem shape_cons {T : Type} {D : Nat} (v : extent T (D + 1)) :
    v.m_shape = v.m_shape.getD 0 0 :: v.m_shape.drop 1 := by
  have h := v.shape_length
  cases hs : v.m_shape with
  | nil => rw [hs] at h; simp at h
  | cons x xs => simp

theorem take_drop_one {T : Type} {D : Nat} (v : extent T (D + 1)) :
    (v.m_shape.drop 1).take D = v.m_shape.drop 1 := by
  apply List.take_of_length_le
  simp [v.shape_length]

theorem extent_size_eq {T : Type} {D : Nat} (v : extent T (D + 1)) :
    mul_loop v.m_shape D 1 = (v.m_shape.drop 1).prod % size_type_mod := by
  rw [mul_loop_eq _ _ _ (by simp [v.shape_length]) (by simp [size_type_mod]), take_drop_one]
  simp

theorem flat_size_eq {T : Type} {D : Nat} (v : extent T (D + 1)) :
    extent.flat_size v = v.m_shape.prod % size_type_mod := by
  unfold extent.flat_size
  have h0 : v.m_shape.getD 0 0 < size_type_mod := by
    apply v.shape_range
    have := shape_cons v
    rw [this]; simp
  rw [Nat.add_sub_cancel, mul_loop_eq _ _ _ (by simp [v.shape_length]) h0, take_drop_one]
  conv_rhs => rw [shape_cons v]
  simp

theorem from_pointer_data {T : Type} (D ptr : Nat) (shape : List Nat)
    (hl : D ≤ shape.length) (hr : ∀ x ∈ shape, x < size_type_mod) :
    (extent.from_pointer D ptr shape hl hr : extent T D).m_data = ptr := by
  match D with
  | 0 => rfl
  | 1 => rfl
  | _ + 2 => rfl

theorem from_pointer_shape {T : Type} (D ptr : Nat) (shape : List Nat)
    (hl : D ≤ shape.length) (hr : ∀ x ∈ shape, x < size_type_mod) (hlen : shape.length = D) :
    (extent.from_pointer D ptr shape hl hr : extent T D).m_shape = shape := by
  match D with
  | 0 =>
    simp only [extent.from_pointer]
    exact (List.length_eq_zero.mp hlen).symm
  | 1 =>
    simp only [extent.from_pointer]
    match shape, hlen with
    | [x], _ => rfl
  | D + 2 =>
    simp only [extent.from_pointer]
    exact List.take_of_length_le (by omega)

theorem operator_index_data {T : Type} {D : Nat} (v : extent T D) (pos : Nat) :
    (v.operator_index pos).m_data
      = v.m_data + mul_loop v.m_shape (D - 1) 1 * pos % size_type_mod := by
  unfold extent.operator_index
  exact from_pointer_data _ _ _ _ _

theorem operator_index_shape {T : Type} {D : Nat} (v : extent T D) (pos : Nat) :
    (v.operator_index pos).m_shape = v.m_shape.drop 1 := by
  unfold extent.operator_index
  exact from_pointer_shape _ _ _ _ _ (by simp [v.shape_length])

theorem fits_tail {T : Type} {D : Nat} (v : extent T (D + 1)) (hfit : fits v)
    (h0 : 0 < v.m_shape.getD 0 0) : (v.m_shape.drop 1).prod < size_type_mod := by
  unfold fits at hfit
  rw [shape_cons v, List.prod_cons] at hfit
  calc (v.m_shape.drop 1).prod = 1 * (v.m_shape.drop 1).prod := by ring
    _ ≤ v.m_shape.getD 0 0 * (v.m_shape.drop 1).prod := Nat.mul_le_mul_right _ h0
    _ < size_type_mod := hfit

theorem child_offset {T : Type} {D : Nat} (v : extent T (D + 1)) (hfit : fits v)
    (pos : Nat) (hpos : pos < v.m_shape.getD 0 0) :
    mul_loop v.m_shape D 1 * pos % size_type_mod = pos * (v.m_shape.drop 1).prod := by
  have ht := fits_tail v hfit (by omega)
  rw [extent_size_eq, Nat.mod_eq_of_lt ht]
  unfold fits at hfit
  rw [shape_cons v, List.prod_cons] at hfit
  have hle : pos * (v.m_shape.drop 1).prod ≤ v.m_shape.getD 0 0 * (v.m_shape.drop 1).prod :=
    Nat.mul_le_mul_right _ (le_of_lt hpos)
  rw [Nat.mul_comm, Nat.mod_eq_of_lt (lt_of_le_of_lt hle hfit)]

theorem flat_offset_cons (s0 : Nat) (s : List Nat) (idx : List Nat) :
    flat_offset (s0 :: s) idx = idx.getD 0 0 * s.prod + flat_offset s (idx.drop 1) := by
  unfold flat_offset
  rw [List.length_cons, List.range_succ_eq_map, List.map_cons, List.sum_cons, List.map_map]
  congr 2
  apply List.map_congr_left
  intro k _
  cases idx with
  | nil => simp
  | cons i idx => simp

theorem subscript_flat_offset {T : Type} (N : Nat) (hN : 1 ≤ N) (v : extent T N)
    (hfit : fits v) (idx : List Nat)
    (hidx : ∀ k, k < N → idx.getD k 0 < v.m_shape.getD k 0) :
    subscript N v idx = v.m_data + flat_offset v.m_shape idx := by
  induction N generalizing idx with
  | zero => omega
  | succ D ih =>
    cases D with
    | zero =>
      rw [shape_cons v, flat_offset_cons]
      have hd : v.m_shape.drop 1 = [] := by
        apply List.eq_nil_of_length_eq_zero
        simp [v.shape_length]
      simp [subscript, extent1.operator_index, hd, flat_offset]
    | succ D =>
      have h0 := hidx 0 (by omega)
      have hchild : fits (v.operator_index (idx.getD 0 0)) := by
        unfold fits
        rw [operator_index_shape]
        exact fits_tail v hfit (by omega)
      have hrec := ih (by omega) (v.operator_index (idx.getD 0 0)) hchild (idx.drop 1) (by
        intro k hk
        rw [operator_index_shape]
        have := hidx (k + 1) (by omega)
        simpa [List.getD_eq_getElem?_getD, Nat.add_comm] using this)
      rw [subscript, hrec, operator_index_shape, operator_index_data]
      simp only [Nat.add_sub_cancel]
      rw [child_offset v hfit _ h0]
      conv_rhs => rw [shape_cons v, flat_offset_cons]
      omega

theorem shape_eq_of_elementwise {T : Type} {N : Nat} (a b : extent T N)
    (h : ∀ k, k < N → a.m_shape.getD k 0 = b.m_shape.getD k 0) : a.m_shape = b.m_shape := by
  apply List.ext_getElem (by rw [a.shape_length, b.shape_length])
  intro k h1 h2
  have hk := h k (by rw [← a.shape_length]; exact h1)
  rw [List.getD_eq_getElem _ _ h1, List.getD_eq_getElem _ _ h2] at hk
  exact hk

theorem flat_size_congr {T : Type} {N : Nat} (a b : extent T N) (h : a.m_shape = b.m_shape) :
    flat_size a = flat_size b := by
  rw [flat_size_generic, flat_size_generic]
  unfold extent.flat_size
  rw [h]

theorem block_eq_iff {T : Type} (m1 m2 : Mem T) (p1 p2 n : Nat) :
    Mem.block m1 p1 n = Mem.block m2 p2 n ↔ ∀ k, k < n → m1 (p1 + k) = m2 (p2 + k) := by
  unfold Mem.block
  constructor
  · intro h k hk
    have := congrArg (fun l => l[k]?) h
    simpa [List.getElem?_map, List.getElem?_range hk] using this
  · intro h
    apply List.map_congr_left
    intro k hk
    exact h k (List.mem_range.mp hk)

theorem flat_offset_lt (shape idx : List Nat)
    (h : ∀ k, k < shape.length → idx.getD k 0 < shape.getD k 0) :
    flat_offset shape idx < shape.prod := by
  induction shape generalizing idx with
  | nil => simp [flat_offset]
  | cons s0 s ih =>
    rw [flat_offset_cons, List.prod_cons]
    have h0 : idx.getD 0 0 < s0 := by simpa using h 0 (by simp)
    have hrec : flat_offset s (idx.drop 1) < s.prod := by
      apply ih
      intro k hk
      have := h (k + 1) (by simpa using hk)
      simpa [List.getD_eq_getElem?_getD, Nat.add_comm] using this
    calc idx.getD 0 0 * s.prod + flat_offset s (idx.drop 1)
        < idx.getD 0 0 * s.prod + s.prod := by omega
      _ = (idx.getD 0 0 + 1) * s.prod := by ring
      _ ≤ s0 * s.prod := Nat.mul_le_mul_right _ h0

theorem flat_size_fits {T : Type} {N : Nat} (hN : 1 ≤ N) (v : extent T N) (hfit : fits v) :
    flat_size v = v.m_shape.prod := by
  obtain ⟨D, rfl⟩ : ∃ D, N = D + 1 := ⟨N - 1, by omega⟩
  rw [flat_size_generic, flat_size_eq, Nat.mod_eq_of_lt hfit]

theorem child_flat_size {T : Type} {D : Nat} (p : extent T (D + 2)) (hfit : fits p)
    (h0 : 0 < p.m_shape.getD 0 0) (pos : Nat) :
    flat_size (p.operator_index pos) = (p.m_shape.drop 1).prod := by
  have hchild : fits (p.operator_index pos) := by
    unfold fits
    rw [operator_index_shape]
    exact fits_tail p hfit h0
  have h := flat_size_fits (N := D + 2 - 1) (by omega) (p.operator_index pos) hchild
  rw [h, operator_index_shape]

theorem sibling_disjoint {T : Type} {D : Nat} (p : extent T (D + 2)) (hfit : fits p)
    (pos j : Nat) (hpos : pos < p.m_shape.getD 0 0) (hj : j < p.m_shape.getD 0 0)
    (hne : j ≠ pos) (k : Nat) (hk : k < flat_size (p.operator_index j)) :
    (p.operator_index j).m_data + k < (p.operator_index pos).m_data ∨
      (p.operator_index pos).m_data + flat_size (p.operator_index pos)
        ≤ (p.operator_index j).m_data + k := by
  rw [child_flat_size p hfit (by omega)] at hk ⊢
  rw [operator_index_data, operator_index_data]
  simp only [show D + 2 - 1 = D + 1 by omega]
  rw [child_offset p hfit pos hpos, child_offset p hfit j hj]
  rcases Nat.lt_or_gt_of_ne hne with h | h
  · left
    have : (j + 1) * (p.m_shape.drop 1).prod ≤ pos * (p.m_shape.drop 1).prod :=
      Nat.mul_le_mul_right _ h
    rw [Nat.add_mul] at this
    omega
  · right
    have : (pos + 1) * (p.m_shape.drop 1).prod ≤ j * (p.m_shape.drop 1).prod :=
      Nat.mul_le_mul_right _ h
    rw [Nat.add_mul] at this
    omega

theorem std_equal_array_iff (a b : List Nat) (h : a.length = b.length) :
    std_equal_array a b = true ↔ a = b := by
  induction a generalizing b with
  | nil =>
    cases b with
    | nil => simp [std_equal_array]
    | cons y b => simp at h
  | cons x a ih =>
    cases b with
    | nil => simp at h
    | cons y b =>
      have hl : a.length = b.length := by simpa using h
      by_cases hxy : x = y
      · simp [std_equal_array, hxy, ih b hl]
      · simp [std_equal_array, hxy]

theorem equal_loop_iff {T : Type} [BEq T] (mem : Mem T) (n p q : Nat) :
    equal_loop mem n p q = true ↔ ∀ i, i < n → (mem (p + i) == mem (q + i)) = true := by
  induction n generalizing p q with
  | zero => simp [equal_loop]
  | succ n ih =>
    rw [equal_loop]
    constructor
    · intro h i hi
      by_cases h0 : (mem p == mem q) = true
      · rw [if_pos h0, ih] at h
        cases i with
        | zero => simpa using h0
        | succ i =>
          have := h i (by omega)
          rw [show p + (i + 1) = p + 1 + i by omega, show q + (i + 1) = q + 1 + i by omega]
          exact this
      · rw [if_neg h0] at h
        cases h
    · intro h
      have h0 : (mem p == mem q) = true := by simpa using h 0 (by omega)
      rw [if_pos h0, ih]
      intro i hi
      have := h (i + 1) (by omega)
      rw [show p + (i + 1) = p + 1 + i by omega, show q + (i + 1) = q + 1 + i by omega] at this
      exact this

theorem operator_eq_unfold {T : Type} [BEq T] {D : Nat} (lhs rhs : extent T D) (mem : Mem T) :
    operator_eq lhs rhs mem
      = (std_equal_array lhs.m_shape rhs.m_shape &&
          equal_loop mem (flat_size lhs) lhs.m_data rhs.m_data) := by
  match D, lhs, rhs with
  | 0, lhs, rhs =>
    simp only [operator_eq, std_equal, flat_size, extent.shape, extent.data,
      Nat.add_sub_cancel_left]
  | 1, lhs, rhs =>
    simp only [operator_eq, std_equal, flat_size, extent1.shape, extent1.data,
      Nat.add_sub_cancel_left]
  | _ + 2, lhs, rhs =>
    simp only [operator_eq, std_equal, flat_size, extent.shape, extent.data,
      Nat.add_sub_cancel_left]

theorem operator_eq_iff {T : Type} [BEq T] {N : Nat} (a b : extent T N) (mem : Mem T) :
    operator_eq a b mem = true ↔
      a.m_shape = b.m_shape ∧
        ∀ i, i < flat_size a → (mem (a.m_data + i) == mem (b.m_data + i)) = true := by
  rw [operator_eq_unfold, Bool.and_eq_true,
    std_equal_array_iff _ _ (by rw [a.shape_length, b.shape_length]), equal_loop_iff]

theorem equal_vector_loop_spec {T : Type} [BEq T] (mem : Mem T) (w : List T) (n p k : Nat)
    (h : k + n ≤ w.length) :
    ∃ r, equal_vector_loop mem w n p k = some r ∧
      (r = true ↔
        ∀ i, i < n → ∃ x, w.get? (k + i) = some x ∧ (mem (p + i) == x) = true) := by
  induction n generalizing p k with
  | zero => exact ⟨true, rfl, by simp⟩
  | succ n ih =>
    have hk : k < w.length := by omega
    rw [equal_vector_loop, List.get?_eq_get hk]
    simp only
    by_cases h0 : (mem p == w.get ⟨k, hk⟩) = true
    · rw [if_pos h0]
      obtain ⟨r, hr, hiff⟩ := ih (p + 1) (k + 1) (by omega)
      refine ⟨r, hr, ?_⟩
      rw [hiff]
      constructor
      · intro hall i hi
        cases i with
        | zero => exact ⟨_, List.get?_eq_get hk, h0⟩
        | succ i =>
          have := hall i (by omega)
          rw [show k + (i + 1) = k + 1 + i by omega, show p + (i + 1) = p + 1 + i by omega]
          exact this
      · intro hall i hi
        have := hall (i + 1) (by omega)
        rw [show k + (i + 1) = k + 1 + i by omega, show p + (i + 1) = p + 1 + i by omega] at this
        exact this
    · rw [if_neg h0]
      refine ⟨false, rfl, ?_⟩
      constructor
      · intro hf
        cases hf
      · intro hall
        exfalso
        obtain ⟨x, hx, hxe⟩ := hall 0 (by omega)
        rw [Nat.add_zero, List.get?_eq_get hk] at hx
        injection hx with hx
        subst hx
        exact h0 hxe

/-! ## Claims -/

/-- C1: for a view `v` of dimension `N > 1` whose extent product fits in `size_type`
and every `pos < v.shape()[0]`, the child `v[pos]` has data pointer
`v.data() + pos * product(v.shape()[1..N))` and shape `v.shape()[1..N)`, the
parent's shape without its first extent, in the same order (`data()` and `shape()`
return the members `m_data` and `m_shape`). -/
theorem C1_operator_index_child {T : Type} {N : Nat} (hN : 1 < N) (v : extent T N)
    (hfit : fits v) (pos : Nat) (hpos : pos < v.shape.getD 0 0) :
    (v.operator_index pos).m_data = v.data + pos * (v.shape.drop 1).prod ∧
      (v.operator_index pos).m_shape = v.shape.drop 1 := by
  obtain ⟨D, rfl⟩ : ∃ D, N = D + 1 := ⟨N - 1, by omega⟩
  refine ⟨?_, operator_index_shape v pos⟩
  rw [operator_index_data]
  simp only [extent.data, extent.shape, Nat.add_sub_cancel]
  rw [child_offset v hfit pos hpos]

/-- Witness of C1 on the 3 by 4 view of the tests: row 2 starts at offset 8 and has
shape `[4]`. -/
theorem C1_operator_index_child_witness :
    (obj34.operator_index 2).m_data = obj34.data + 2 * (obj34.shape.drop 1).prod ∧
      (obj34.operator_index 2).m_shape = obj34.shape.drop 1 :=
  C1_operator_index_child (by decide) obj34 (by decide) 2 (by decide)

/-- C2: row-major element access. For an `N`-dimensional view `v` whose extent
product fits in `size_type` and an index tuple with every `ik < shape[k]`, the
chained access `v[i0]...[i(N-1)]` refers to the element at flat offset
`sum over k of ik * product(shape[k+1..N))` from `v.data()`. For a 2-D view of shape
`R, C` this is offset `y * C + x`, and on the buffer `0..11` with shape `3, 4`,
`v[1][2] == 6` and `v[y][x] == 4 * y + x`. -/
theorem C2_row_major_access {T : Type} {N : Nat} (hN : 1 ≤ N) (v : extent T N) (hfit : fits v)
    (idx : List Nat) (_hlen : idx.length = N)
    (hidx : ∀ k, k < N → idx.getD k 0 < v.shape.getD k 0) :
    subscript N v idx = v.data + flat_offset v.shape idx ∧
      (∀ (w : extent T 2) (y x : Nat), fits w → y < w.shape.getD 0 0 → x < w.shape.getD 1 0 →
        subscript 2 w [y, x] = w.data + (y * w.shape.getD 1 0 + x)) ∧
      data12 (subscript 2 obj34 [1, 2]) = 6 ∧
      ∀ y x : Nat, y < 3 → x < 4 → data12 (subscript 2 obj34 [y, x]) = 4 * y + x := by
  refine ⟨subscript_flat_offset N hN v hfit idx hidx, ?_, by decide, ?_⟩
  · intro w y x hw hy hx
    rw [subscript_flat_offset 2 (by decide) w hw [y, x] (by
      intro k hk
      interval_cases k
      · simpa using hy
      · simpa using hx)]
    have hs : w.m_shape = [w.m_shape.getD 0 0, w.m_shape.getD 1 0] := by
      have hl := w.shape_length
      match hm : w.m_shape, hl with
      | [a, b], _ => simp
    simp only [extent.data, extent.shape]
    rw [hs]
    simp [flat_offset, List.range_succ]
  · intro y x hy hx
    have hw : fits obj34 := by decide
    rw [subscript_flat_offset 2 (by decide) obj34 hw [y, x] (by
      intro k hk
      interval_cases k
      · simpa [obj34] using hy
      · simpa [obj34] using hx)]
    interval_cases y <;> interval_cases x <;> decide

/-- Witness of C2: the access `v[2][3]` on the 3 by 4 view of the tests. -/
theorem C2_row_major_access_witness :
    subscript 2 obj34 [2, 3] = obj34.data + flat_offset obj34.shape [2, 3] :=
  (C2_row_major_access (by decide) obj34 (by decide) [2, 3] rfl (by decide)).1

/-- C3: for a view of any dimension (primary template `v`, specialisation `e`) and
every `pos`, `at(pos)` throws `std::out_of_range` if and only if
`pos >= shape()[0]`, and for `pos < shape()[0]` it returns normally with the result
of `operator[](pos)`: the same child view, or the same element reference. -/
theorem C3_at_checked {T : Type} {N : Nat} (v : extent T N) (e : extent T 1) (pos : Nat) :
    ((v.at_ pos = .error .out_of_range ↔ v.shape.getD 0 0 ≤ pos) ∧
      (pos < v.shape.getD 0 0 → v.at_ pos = .ok (v.operator_index pos))) ∧
    ((extent1.at_ e pos = .error .out_of_range ↔ (extent1.shape e).getD 0 0 ≤ pos) ∧
      (pos < (extent1.shape e).getD 0 0 →
        extent1.at_ e pos = .ok (extent1.operator_index e pos))) := by
  refine ⟨⟨?_, ?_⟩, ⟨?_, ?_⟩⟩
  · unfold extent.at_ extent.shape
    by_cases h : pos < v.m_shape.getD 0 0
    · simp [h]
    · simp [h, Nat.le_of_not_lt h]
  · intro h
    unfold extent.at_
    unfold extent.shape at h
    rw [if_neg (not_not_intro h)]
  · unfold extent1.at_ extent1.shape
    by_cases h : pos < e.m_shape.getD 0 0
    · simp [h]
    · simp [h, Nat.le_of_not_lt h]
  · intro h
    unfold extent1.at_
    unfold extent1.shape at h
    rw [if_neg (not_not_intro h)]

/-- Witness of C3 on the views of the tests: `obj.at(3)` and `obj[1].at(4)` throw,
`obj.at(2)` and `obj[1].at(3)` return what `operator[]` returns. -/
theorem C3_at_checked_witness :
    (obj34.at_ 3 = .error .out_of_range ∧ extent1.at_ row1 4 = .error .out_of_range) ∧
      obj34.at_ 2 = .ok (obj34.operator_index 2) ∧
      extent1.at_ row1 3 = .ok (extent1.operator_index row1 3) :=
  ⟨⟨(C3_at_checked obj34 row1 3).1.1.mpr (by decide),
      (C3_at_checked obj34 row1 4).2.1.mpr (by decide)⟩,
    (C3_at_checked obj34 row1 2).1.2 (by decide),
    (C3_at_checked obj34 row1 3).2.2 (by decide)⟩

/-- C4 (amended): write-through assignment. For two views `a` and `b` of the same
dimension with element-wise equal shapes whose blocks of `flat_size()` elements do
not overlap, whenever `a = b` returns, the `flat_size()` elements at `a.data()`
equal, position by position, the `flat_size()` elements at `b.data()`, which are the
ones `b` had before; and `a = b` does return when its assertion is compiled out or
passes. -/
theorem C4_assign_write_through {T : Type} {N : Nat} (ndebug : Bool)
    (this_shape other_shape : Nat) (a b : extent T N) (mem : Mem T)
    (hshape : ∀ k, k < N → a.shape.getD k 0 = b.shape.getD k 0)
    (hdisj : a.data + flat_size a ≤ b.data ∨ b.data + flat_size b ≤ a.data) :
    (∀ mem' a' b',
        assign_view ndebug this_shape other_shape a b mem = .ok (mem', a', b') →
        Mem.block mem' a.data (flat_size a) = Mem.block mem' b.data (flat_size b) ∧
          Mem.block mem' b.data (flat_size b) = Mem.block mem b.data (flat_size b)) ∧
    ((ndebug = true ∨ this_shape = other_shape) →
        ∃ mem', assign_view ndebug this_shape other_shape a b mem = .ok (mem', a, b)) := by
  have hfs : flat_size b = flat_size a :=
    (flat_size_congr a b (shape_eq_of_elementwise a b hshape)).symm
  rw [hfs] at hdisj ⊢
  simp only [extent.data] at hdisj ⊢
  refine ⟨?_, fun hc => ⟨_, assign_view_ok _ _ _ _ _ _ hc⟩⟩
  intro mem' a' b' h
  obtain ⟨hm, _, _⟩ := assign_view_post _ _ _ _ _ _ _ _ _ h
  subst hm
  constructor
  · rw [block_eq_iff]
    intro k hk
    rw [copy_loop_value _ _ _ _ _ hk (by omega), copy_loop_frame _ _ _ _ _ (by omega)]
  · rw [block_eq_iff]
    intro k hk
    rw [copy_loop_frame _ _ _ _ _ (by omega)]

/-- Witness of C4: the assignment `objA[0] = objA[2]` of the tests, rows 0 and 2 of a
3 by 4 view, in a build with `NDEBUG`. -/
theorem C4_assign_write_through_witness :
    ∃ mem', assign_view true 10 20 (obj34.operator_index 0) (obj34.operator_index 2) data12
        = .ok (mem', obj34.operator_index 0, obj34.operator_index 2) ∧
      Mem.block mem' (obj34.operator_index 0).data (flat_size (obj34.operator_index 0))
        = Mem.block mem' (obj34.operator_index 2).data (flat_size (obj34.operator_index 2)) ∧
      Mem.block mem' (obj34.operator_index 2).data (flat_size (obj34.operator_index 2))
        = Mem.block data12 (obj34.operator_index 2).data
            (flat_size (obj34.operator_index 2)) :=
  have h := C4_assign_write_through true 10 20 (obj34.operator_index 0)
    (obj34.operator_index 2) data12 (by decide) (by decide)
  match h.2 (Or.inl rfl) with
  | ⟨mem', hm⟩ => ⟨mem', hm, h.1 _ _ _ hm⟩

/-- C4 (as stated) fails on overlapping views of one buffer: with the buffer `1, 2, 3`,
`a` the two elements at offset 0 and `b` the two elements at offset 1 (equal shapes),
`a = b` leaves the buffer `2, 3, 3`, so `a` holds `2, 3` and `b` holds `3, 3`. -/
theorem C4_overlap_counterexample :
    (∀ k, k < 1 → viewA3.shape.getD k 0 = viewB3.shape.getD k 0) ∧
    ∃ mem', assign_view true 10 20 viewA3 viewB3 data3 = .ok (mem', viewA3, viewB3) ∧
      Mem.block mem' 0 3 = [2, 3, 3] ∧
      Mem.block mem' viewA3.data (flat_size viewA3) = [2, 3] ∧
      Mem.block mem' viewB3.data (flat_size viewB3) = [3, 3] ∧
      Mem.block mem' viewA3.data (flat_size viewA3)
        ≠ Mem.block mem' viewB3.data (flat_size viewB3) :=
  ⟨by decide, _, rfl, by decide, by decide, by decide, by decide⟩

/-- C5: assignment through a view mutates only that view's block. Whenever an
assignment to `v` from a view `other` returns, and after the assignment of a list of
`flat_size()` elements (which always returns), every element outside
`[v.data(), v.data() + v.flat_size())` is as it was; the assignment from a view
returns when its assertion is compiled out or passes. For a view `p` of dimension at
least 2 whose extent product fits in `size_type`, assigning to `p[pos]` leaves the
block of every sibling `p[j]`, `j != pos`, unchanged; assigning `42, 42, 42, 42` to
row 1 of the 3 by 4 view changes only buffer indices 4..7. -/
theorem C5_assign_frame {T : Type} {N : Nat} (ndebug : Bool) (this_shape other_shape : Nat)
    (v other : extent T N) (values : List T) (mem : Mem T)
    (hlen : values.length = flat_size v) :
    (∀ mem' v' other',
        assign_view ndebug this_shape other_shape v other mem = .ok (mem', v', other') →
        ∀ q, (q < v.data ∨ v.data + flat_size v ≤ q) → mem' q = mem q) ∧
    ((ndebug = true ∨ this_shape = other_shape) →
        ∃ mem', assign_view ndebug this_shape other_shape v other mem
          = .ok (mem', v, other)) ∧
    (∃ mem', assign_list ndebug v values mem = .ok (mem', v) ∧
      ∀ q, (q < v.data ∨ v.data + flat_size v ≤ q) → mem' q = mem q) ∧
    (∀ (D : Nat) (p : extent T (D + 2)) (pos j : Nat) (src : extent T (D + 2 - 1))
        (vals : List T), fits p → pos < p.size → j < p.size → j ≠ pos →
        vals.length = flat_size (p.operator_index pos) →
      (∃ mem', assign_list ndebug (p.operator_index pos) vals mem
            = .ok (mem', p.operator_index pos) ∧
          Mem.block mem' (p.operator_index j).m_data (flat_size (p.operator_index j))
            = Mem.block mem (p.operator_index j).m_data (flat_size (p.operator_index j))) ∧
      (∀ mem' c' src',
          assign_view ndebug this_shape other_shape (p.operator_index pos) src mem
            = .ok (mem', c', src') →
          Mem.block mem' (p.operator_index j).m_data (flat_size (p.operator_index j))
            = Mem.block mem (p.operator_index j).m_data (flat_size (p.operator_index j)))) ∧
    (∃ mem', assign_list false (obj34.operator_index 1) [42, 42, 42, 42] data12
          = .ok (mem', obj34.operator_index 1) ∧
        Mem.block mem' 0 12 = [0, 1, 2, 3, 42, 42, 42, 42, 8, 9, 10, 11]) := by
  refine ⟨?_, fun hc => ⟨_, assign_view_ok _ _ _ _ _ _ hc⟩,
    ⟨_, assign_list_ok _ _ _ _ (Or.inr hlen.symm), ?_⟩, ?_, ⟨_, rfl, by decide⟩⟩
  · intro mem' v' other' h q hq
    obtain ⟨hm, _, _⟩ := assign_view_post _ _ _ _ _ _ _ _ _ h
    subst hm
    exact copy_loop_frame _ _ _ _ _ hq
  · intro q hq
    rw [← hlen] at hq
    exact copy_list_frame _ _ _ _ hq
  · intro D p pos j src vals hfit hpos hj hne hvals
    refine ⟨⟨_, assign_list_ok _ _ _ _ (Or.inr hvals.symm), ?_⟩, ?_⟩
    · rw [block_eq_iff]
      intro k hk
      apply copy_list_frame
      rw [hvals]
      exact sibling_disjoint p hfit pos j hpos hj hne k hk
    · intro mem' c' src' h
      obtain ⟨hm, _, _⟩ := assign_view_post _ _ _ _ _ _ _ _ _ h
      subst hm
      rw [block_eq_iff]
      intro k hk
      apply copy_loop_frame
      exact sibling_disjoint p hfit pos j hpos hj hne k hk

/-- Witness of C5: assigning `42, 42, 42, 42` to row 1 of the 3 by 4 view, and
assigning row 2 to row 1, leave the elements before offset 4 and from offset 8 on
unchanged. -/
theorem C5_assign_frame_witness :
    (∃ mem', assign_view true 10 20 row1 (obj34.operator_index 2) data12
        = .ok (mem', row1, obj34.operator_index 2) ∧
      ∀ q, (q < row1.data ∨ row1.data + flat_size row1 ≤ q) → mem' q = data12 q) ∧
    (∃ mem', assign_list true row1 [42, 42, 42, 42] data12 = .ok (mem', row1) ∧
      ∀ q, (q < row1.data ∨ row1.data + flat_size row1 ≤ q) → mem' q = data12 q) :=
  have h := C5_assign_frame true 10 20 row1 (obj34.operator_index 2) [42, 42, 42, 42] data12
    (by decide)
  ⟨match h.2.1 (Or.inl rfl) with
    | ⟨mem', hm⟩ => ⟨mem', hm, h.1 _ _ _ hm⟩, h.2.2.1⟩

/-- C6: no rebinding. Whenever `operator=` from another view, `operator=` from an
initializer list, or `assign` (of the primary template `v` or of the specialisation
`e`) returns, the view still has the `data()` pointer and the `shape()` extents it
had before the call, and so has the source view; the calls do return when their
assertion is compiled out or passes. -/
theorem C6_no_rebinding {T : Type} {N : Nat} (ndebug : Bool) (this_shape other_shape : Nat)
    (v other : extent T N) (e : extent T 1) (values : List T) (mem : Mem T) :
    (∀ mem' v' other',
        assign_view ndebug this_shape other_shape v other mem = .ok (mem', v', other') →
        v'.data = v.data ∧ v'.shape = v.shape ∧
          other'.data = other.data ∧ other'.shape = other.shape) ∧
    (∀ mem' v', assign_list ndebug v values mem = .ok (mem', v') →
        v'.data = v.data ∧ v'.shape = v.shape) ∧
    (∀ mem' v', v.assign ndebug values mem = .ok (mem', v') →
        v'.data = v.data ∧ v'.shape = v.shape) ∧
    (∀ mem' e', extent1.assign ndebug e values mem = .ok (mem', e') →
        extent1.data e' = extent1.data e ∧ extent1.shape e' = extent1.shape e) ∧
    ((ndebug = true ∨ this_shape = other_shape) →
        ∃ mem', assign_view ndebug this_shape other_shape v other mem
          = .ok (mem', v, other)) ∧
    ((ndebug = true ∨ flat_size v = values.length) →
        (∃ mem', assign_list ndebug v values mem = .ok (mem', v)) ∧
          ∃ mem', v.assign ndebug values mem = .ok (mem', v)) := by
  refine ⟨?_, ?_, ?_, ?_, ?_, ?_⟩
  · intro mem' v' other' h
    obtain ⟨_, h1, h2⟩ := assign_view_post _ _ _ _ _ _ _ _ _ h
    subst h1 h2
    exact ⟨rfl, rfl, rfl, rfl⟩
  · intro mem' v' h
    obtain ⟨_, h1⟩ := assign_list_post _ _ _ _ _ _ h
    subst h1
    exact ⟨rfl, rfl⟩
  · intro mem' v' h
    rcases assign_member_cases ndebug v values mem with hc | hc
    · rw [hc] at h
      injection h with h
      injection h with _ h
      subst h
      exact ⟨rfl, rfl⟩
    · rw [hc] at h
      cases h
  · intro mem' e' h
    rcases assign_member1_cases ndebug e values mem with hc | hc
    · rw [hc] at h
      injection h with h
      injection h with _ h
      subst h
      exact ⟨rfl, rfl⟩
    · rw [hc] at h
      cases h
  · intro hc
    exact ⟨_, assign_view_ok _ _ _ _ _ _ hc⟩
  · intro hc
    refine ⟨⟨_, assign_list_ok _ _ _ _ hc⟩, ?_⟩
    have hb : (ndebug || v.flat_size == values.length) = true := by
      rw [← flat_size_generic]
      rcases hc with hc | hc <;> simp [hc]
    exact ⟨_, by unfold extent.assign; rw [if_pos hb]⟩

/-- Witness of C6: after `objA[0] = objA[2]` on the 3 by 4 view, row 0 still points
at offset 0 with shape `[4]` and row 2 at offset 8 with shape `[4]`. -/
theorem C6_no_rebinding_witness :
    ∃ mem' v' other',
      assign_view true 10 20 (obj34.operator_index 0) (obj34.operator_index 2) data12
        = .ok (mem', v', other') ∧
      (v'.data = 0 ∧ v'.shape = [4]) ∧ other'.data = 8 ∧ other'.shape = [4] :=
  have h := C6_no_rebinding true 10 20 (obj34.operator_index 0) (obj34.operator_index 2)
    row1 [42, 42, 42, 42] data12
  match h.2.2.2.2.1 (Or.inl rfl) with
  | ⟨mem', hm⟩ =>
    ⟨mem', _, _, hm, ⟨(h.1 _ _ _ hm).1, (h.1 _ _ _ hm).2.1⟩,
      (h.1 _ _ _ hm).2.2.1, (h.1 _ _ _ hm).2.2.2⟩

/-- C7: for two views `a` and `b` of the same dimension `N`, `a == b` is true if and
only if `a.shape()[k] == b.shape()[k]` for every `k < N` and the `flat_size()`
elements at `a.data()` equal those at `b.data()` position by position. When the
shapes differ in some extent the result is false whatever the contents, also for
equal flat sizes: the shapes `3, 4` and `4, 3` over the same 12 elements compare
unequal. -/
theorem C7_operator_eq_iff {T : Type} [BEq T] {N : Nat} (a b : extent T N) (mem : Mem T) :
    (operator_eq a b mem = true ↔
      (∀ k, k < N → a.shape.getD k 0 = b.shape.getD k 0) ∧
        ∀ i, i < flat_size a → (mem (a.data + i) == mem (b.data + i)) = true) ∧
    ((∃ k, k < N ∧ a.shape.getD k 0 ≠ b.shape.getD k 0) → operator_eq a b mem = false) ∧
    (flat_size obj34 = flat_size obj43 ∧ operator_eq obj34 obj43 data12 = false) := by
  have hiff := operator_eq_iff a b mem
  refine ⟨?_, ?_, by decide⟩
  · rw [hiff]
    constructor
    · rintro ⟨hs, hc⟩
      refine ⟨?_, hc⟩
      intro k _
      simp only [extent.shape]
      rw [hs]
    · rintro ⟨hs, hc⟩
      exact ⟨shape_eq_of_elementwise a b hs, hc⟩
  · rintro ⟨k, _, hne⟩
    cases hb : operator_eq a b mem with
    | false => rfl
    | true =>
      exfalso
      apply hne
      simp only [extent.shape]
      rw [(hiff.mp hb).1]

/-- Witness of C7: two views of shape 3 by 4 over the same buffer compare equal. -/
theorem C7_operator_eq_iff_witness : operator_eq obj34 obj34 data12 = true :=
  (C7_operator_eq_iff obj34 obj34 data12).1.mpr ⟨fun _ _ => rfl, by decide⟩

/-- C8: for a view of dimension `N >= 1` whose extent product is representable in
`size_type`, `flat_size()` is the product of all `N` extents of `shape()` and
`size()` is `shape()[0]`; for the 1-D specialisation `size()` and `flat_size()` are
both `shape()[0]`. -/
theorem C8_flat_size_product {T : Type} {N : Nat} (hN : 1 ≤ N) (v : extent T N)
    (hfit : fits v) (e : extent T 1) :
    (flat_size v = v.shape.prod ∧ v.flat_size = v.shape.prod ∧ v.size = v.shape.getD 0 0) ∧
    (extent1.size e = (extent1.shape e).getD 0 0 ∧
      extent1.flat_size e = (extent1.shape e).getD 0 0 ∧ flat_size e = extent1.flat_size e) := by
  have h := flat_size_fits hN v hfit
  refine ⟨⟨h, ?_, rfl⟩, rfl, rfl, rfl⟩
  rw [← flat_size_generic]
  exact h

/-- Witness of C8: the 3 by 4 view has `flat_size() == 12` and `size() == 3`, and its
row 1 has `size() == flat_size() == 4`. -/
theorem C8_flat_size_product_witness :
    (flat_size obj34 = 12 ∧ obj34.flat_size = 12 ∧ obj34.size = 3) ∧
    (extent1.size row1 = 4 ∧ extent1.flat_size row1 = 4 ∧ flat_size row1 = 4) :=
  C8_flat_size_product (by decide) obj34 (by decide) row1

/-- C9: initializer-list assignment copies in row-major order. For a view `v` of
dimension `N >= 1` and a list whose length equals `v.flat_size()`, `v = values`
returns normally and afterwards the element at flat offset `k` from `v.data()` is
`values[k]` for every `k < flat_size()`; when the extent product fits in `size_type`,
`v[i0]...[i(N-1)]` is `values[sum over k of ik * product(shape[k+1..N))]` for every
in-range index tuple. With asserts compiled in, the length check passes exactly when
the list length equals `flat_size()`. -/
theorem C9_assign_list_row_major {T : Type} {N : Nat} (hN : 1 ≤ N) (ndebug : Bool)
    (v : extent T N) (values : List T) (mem : Mem T) (hlen : values.length = flat_size v) :
    (∃ mem', assign_list ndebug v values mem = .ok (mem', v) ∧
      (∀ k, k < flat_size v → values.get? k = some (mem' (v.data + k))) ∧
      (fits v → ∀ idx : List Nat, idx.length = N →
        (∀ k, k < N → idx.getD k 0 < v.shape.getD k 0) →
        values.get? (flat_offset v.shape idx) = some (mem' (subscript N v idx)))) ∧
    (∀ vals : List T,
      (∃ mem', assign_list false v vals mem = .ok (mem', v)) ↔ vals.length = flat_size v) := by
  have hval : ∀ k, k < flat_size v →
      values.get? k = some (std_copy_list values v.m_data mem (v.m_data + k)) := by
    intro k hk
    have hk' : k < values.length := by omega
    rw [copy_list_value _ _ _ _ hk', List.get?_eq_get hk']
  refine ⟨⟨_, assign_list_ok _ _ _ _ (Or.inr hlen.symm), hval, ?_⟩, ?_⟩
  · intro hfit idx _ hidx
    rw [subscript_flat_offset N hN v hfit idx hidx]
    apply hval
    rw [flat_size_fits hN v hfit]
    apply flat_offset_lt
    intro k hk
    exact hidx k (by rw [← v.shape_length]; exact hk)
  · intro vals
    constructor
    · rintro ⟨mem', h⟩
      by_contra hne
      rw [assign_list_fail _ _ _ (fun hh => hne hh.symm)] at h
      cases h
    · intro h
      exact ⟨_, assign_list_ok _ _ _ _ (Or.inr h.symm)⟩

/-- Witness of C9: `view = 1, 3, ..., 23` on the 3 by 4 view of the tests puts
`values[k]` at offset `k`. -/
theorem C9_assign_list_row_major_witness :
    ∃ mem', assign_list false obj34 [1, 3, 5, 7, 9, 11, 13, 15, 17, 19, 21, 23] data12
        = .ok (mem', obj34) ∧
      ∀ k, k < flat_size obj34 →
        ([1, 3, 5, 7, 9, 11, 13, 15, 17, 19, 21, 23] : List Int).get? k
          = some (mem' (obj34.data + k)) :=
  match (C9_assign_list_row_major (by decide) false obj34
      [1, 3, 5, 7, 9, 11, 13, 15, 17, 19, 21, 23] data12 (by decide)).1 with
  | ⟨mem', h1, h2, _⟩ => ⟨mem', h1, h2⟩

/-- C10: cross-type equality. For a 1-D view `e` and a vector `w`, `e == w` never
reads past the end of `w`, and is true if and only if `e.size() == w.size()` and
`e[k] == w[k]` for every `k < e.size()`; `w == e` returns what `e == w` returns. -/
theorem C10_operator_eq_vector {T : Type} [BEq T] (e : extent T 1) (w : List T)
    (mem : Mem T) :
    (∃ r, operator_eq_extent_vector e w mem = some r ∧
      (r = true ↔
        extent1.size e = w.length ∧
          ∀ k, k < extent1.size e →
            ∃ x, w.get? k = some x ∧ (mem (extent1.operator_index e k) == x) = true) ∧
      (extent1.size e ≠ w.length → r = false)) ∧
    operator_eq_vector_extent w e mem = operator_eq_extent_vector e w mem := by
  refine ⟨?_, rfl⟩
  unfold operator_eq_extent_vector std_equal_vector
  rw [Nat.add_sub_cancel_left]
  by_cases hs : extent1.size e = w.length
  · rw [if_neg (not_not_intro hs)]
    obtain ⟨r, hr, hiff⟩ := equal_vector_loop_spec mem w (extent1.size e) (extent1.data e) 0
      (by omega)
    refine ⟨r, hr, ?_, fun hne => absurd hs hne⟩
    rw [hiff]
    simp only [Nat.zero_add, extent1.operator_index, extent1.data]
    constructor
    · intro h
      exact ⟨hs, h⟩
    · intro h
      exact h.2
  · rw [if_pos hs]
    refine ⟨false, rfl, ?_, fun _ => rfl⟩
    constructor
    · intro hf
      cases hf
    · intro h
      exact absurd h.1 hs

/-- Witness of C10 on the comparison test: row 0 of the 3 by 4 view equals the vector
`0, 1, 2, 3` in both argument orders, and differs from a vector of another length. -/
theorem C10_operator_eq_vector_witness :
    operator_eq_extent_vector (T := Int) ⟨0, [4], rfl, by decide⟩ [0, 1, 2, 3] data12
      = some true ∧
    operator_eq_vector_extent (T := Int) [0, 1, 2, 3] ⟨0, [4], rfl, by decide⟩ data12
      = some true ∧
    operator_eq_extent_vector (T := Int) ⟨0, [4], rfl, by decide⟩ [0, 1, 2] data12
      = some false := by
  have h1 := C10_operator_eq_vector (T := Int) ⟨0, [4], rfl, by decide⟩ [0, 1, 2, 3] data12
  have h2 := C10_operator_eq_vector (T := Int) ⟨0, [4], rfl, by decide⟩ [0, 1, 2] data12
  obtain ⟨⟨r1, hr1, hiff1, _⟩, hsym⟩ := h1
  obtain ⟨⟨r2, hr2, _, hne2⟩, _⟩ := h2
  have e1 : r1 = true := hiff1.mpr ⟨rfl, by decide⟩
  have e2 : r2 = false := hne2 (by decide)
  subst e1 e2
  exact ⟨hr1, hsym.trans hr1, hr2⟩

/-! ## Constructors, negation, first and last element -/

theorem const_copy_eq_map (src : List Int) (dst : List Nat) (h : src.length = dst.length) :
    const_copy src dst = src.map to_size_type := by
  induction src generalizing dst with
  | nil =>
    cases dst with
    | nil => rfl
    | cons d dst => simp at h
  | cons u src ih =>
    cases dst with
    | nil => simp at h
    | cons d dst => simp [const_copy, ih dst (by simpa using h)]

theorem to_size_type_of_range (x : Int) (h0 : 0 ≤ x) (h1 : x < (size_type_mod : Int)) :
    (to_size_type x : Int) = x := by
  unfold to_size_type
  rw [Int.emod_eq_of_lt h0 h1]
  exact Int.toNat_of_nonneg h0

theorem ctor_shape {T : Type} {N : Nat} (ptr : Nat) (s : List Int) (h : s.length = N) :
    (extent.ctor ptr s h : extent T N).m_shape = s.map to_size_type := by
  unfold extent.ctor
  exact const_copy_eq_map _ _ (by simp [h])

/-- C11 (evaluation of the code): in a build with asserts, the assignment
`objA = objB` of the two separately constructed 3 by 4 views of the tests, whose
shapes are element-wise equal, aborts on the assertion, because the assertion
compares the addresses of the two `m_shape` arrays; so does every assignment between
two distinct view objects, while self-assignment passes. -/
theorem C11_assert_compares_addresses :
    ((∀ k, k < 2 → obj34.shape.getD k 0 = objB34.shape.getD k 0) ∧
      assign_view false 10 20 obj34 objB34 dataAB = .error .assertion_failed) ∧
    (∀ (T : Type) (N : Nat) (a b : extent T N) (this_shape other_shape : Nat) (mem : Mem T),
      this_shape ≠ other_shape →
        assign_view false this_shape other_shape a b mem = .error .assertion_failed) ∧
    (∀ (T : Type) (N : Nat) (a : extent T N) (this_shape : Nat) (mem : Mem T),
      ∃ mem', assign_view false this_shape this_shape a a mem = .ok (mem', a, a)) := by
  refine ⟨⟨by decide, ?_⟩, ?_, ?_⟩
  · exact assign_view_fail 10 20 obj34 objB34 dataAB (by decide)
  · intro T N a b ts os mem h
    exact assign_view_fail ts os a b mem h
  · intro T N a ts mem
    exact ⟨_, assign_view_ok false ts ts a a mem (Or.inr rfl)⟩

/-- C12: for every view, of the primary template or of the specialisation, and
whatever its shape, `empty()` returns false; so it does for a view with a zero
extent, whose `flat_size()` is 0. -/
theorem C12_empty_false {T : Type} {N : Nat} (v : extent T N) (e : extent T 1) :
    (v.empty = false ∧ extent1.empty e = false) ∧
    (flat_size obj04 = 0 ∧ obj04.empty = false) ∧
    (flat_size row0 = 0 ∧ extent1.empty row0 = false) :=
  ⟨⟨rfl, rfl⟩, ⟨by decide, rfl⟩, ⟨by decide, rfl⟩⟩

/-- C13: construction stores its arguments unchanged. For a pointer `p` and an array
`s` of `N` extents that are non-negative values of an integral type (so below
`2 ^ 64`), the view constructed from `(p, s)` has `data() == p` and
`shape()[k] == s[k]` for every `k < N`, in the same order; the constructor of the
specialisation returns normally with the same result. -/
theorem C13_ctor_stores {T : Type} {N : Nat} (p : Nat) (s : List Int) (h : s.length = N)
    (hs : ∀ x ∈ s, 0 ≤ x ∧ x < (size_type_mod : Int)) :
    ((extent.ctor p s h : extent T N).data = p ∧
      ∀ k, k < N → (((extent.ctor p s h : extent T N).shape.getD k 0 : Nat) : Int)
        = s.getD k 0) ∧
    (∀ (ndebug : Bool) (h1 : s.length = 1),
      ∃ e : extent T 1, extent1.ctor ndebug p s h1 = .ok e ∧ extent1.data e = p ∧
        (((extent1.shape e).getD 0 0 : Nat) : Int) = s.getD 0 0) := by
  refine ⟨⟨rfl, ?_⟩, ?_⟩
  · intro k hk
    have hk' : k < s.length := by omega
    simp only [extent.shape]
    rw [ctor_shape, List.getD_eq_getElem _ _ (by simpa using hk'),
      List.getD_eq_getElem _ _ hk', List.getElem_map]
    have hx := hs (s[k]) (List.getElem_mem _)
    exact to_size_type_of_range _ hx.1 hx.2
  · intro ndebug h1
    have hx : 0 ≤ s.getD 0 0 ∧ s.getD 0 0 < (size_type_mod : Int) := by
      match s, h1, hs with
      | [x], _, hs => simpa using hs x (by simp)
    have hc : (ndebug || decide (0 ≤ s.getD 0 0)) = true := by
      rw [Bool.or_eq_true]
      exact Or.inr (decide_eq_true hx.1)
    unfold extent1.ctor
    rw [if_pos hc]
    refine ⟨_, rfl, rfl, ?_⟩
    simp only [extent1.shape, List.getD_cons_zero]
    exact to_size_type_of_range _ hx.1 hx.2

/-- Witness of C13: the construction `extent(data, 3, 4)` of the tests, and a 1-D
construction with extent 4. -/
theorem C13_ctor_stores_witness :
    ((extent.ctor 0 [3, 4] rfl : extent Int 2).data = 0 ∧
      ∀ k, k < 2 → (((extent.ctor 0 [3, 4] rfl : extent Int 2).shape.getD k 0 : Nat) : Int)
        = ([3, 4] : List Int).getD k 0) ∧
    ∃ e : extent Int 1, extent1.ctor false 4 [4] rfl = .ok e ∧ extent1.data e = 4 ∧
        (((extent1.shape e).getD 0 0 : Nat) : Int) = ([4] : List Int).getD 0 0 :=
  ⟨(C13_ctor_stores (T := Int) 0 [3, 4] rfl (by decide)).1,
    (C13_ctor_stores (T := Int) (N := 1) 4 [4] rfl (by decide)).2 false rfl⟩

theorem operator_eq_extent_vector_some {T : Type} [BEq T] (e : extent T 1) (w : List T)
    (mem : Mem T) : ∃ r, operator_eq_extent_vector e w mem = some r := by
  unfold operator_eq_extent_vector std_equal_vector
  rw [Nat.add_sub_cancel_left]
  by_cases hs : extent1.size e = w.length
  · rw [if_neg (not_not_intro hs)]
    obtain ⟨r, hr, _⟩ := equal_vector_loop_spec mem w (extent1.size e) (extent1.data e) 0
      (by omega)
    exact ⟨r, hr⟩
  · rw [if_pos hs]
    exact ⟨false, rfl⟩

/-- C14: `operator!=` is the exact negation of `operator==` on the same arguments:
for two views of the same dimension `(a != b) == !(a == b)`, and for a 1-D view `e`
and a vector `w`, where `==` returns some boolean `r`, `(e != w)` returns `!r` and
`(w != e)` returns the negation of `(w == e)`. -/
theorem C14_ne_is_negation {T : Type} [BEq T] {N : Nat} (a b : extent T N) (e : extent T 1)
    (w : List T) (mem : Mem T) :
    operator_ne a b mem = !(operator_eq a b mem) ∧
    (∃ r, operator_eq_extent_vector e w mem = some r ∧
      operator_ne_extent_vector e w mem = some (!r)) ∧
    (∃ r, operator_eq_vector_extent w e mem = some r ∧
      operator_ne_vector_extent w e mem = some (!r)) := by
  obtain ⟨r, hr⟩ := operator_eq_extent_vector_some e w mem
  refine ⟨rfl, ⟨r, hr, ?_⟩, ⟨r, hr, ?_⟩⟩
  · unfold operator_ne_extent_vector
    rw [hr]
    rfl
  · unfold operator_ne_vector_extent
    rw [hr]
    rfl

/-- C15: for a 1-D view with `shape()[0] >= 1`, `front()` refers to the element at
offset 0 and `back()` to the element at offset `shape()[0] - 1` from `data()`; both
offsets are below `size()`, and `at(0)` and `at(size() - 1)` return normally with the
element of `front()` and of `back()`. -/
theorem C15_front_back {T : Type} (e : extent T 1) (h : 1 ≤ (extent1.shape e).getD 0 0) :
    (extent1.front e = extent1.data e + 0 ∧
      extent1.back e = extent1.data e + ((extent1.shape e).getD 0 0 - 1)) ∧
    (0 < extent1.size e ∧ (extent1.shape e).getD 0 0 - 1 < extent1.size e) ∧
    (extent1.at_ e 0 = .ok (extent1.front e) ∧
      extent1.at_ e (extent1.size e - 1) = .ok (extent1.back e)) := by
  have hlt : e.m_shape.getD 0 0 < size_type_mod := by
    apply e.shape_range
    have hl := e.shape_length
    match hm : e.m_shape, hl with
    | [x], _ => simp
  simp only [extent1.shape] at h
  have hback : (e.m_shape.getD 0 0 + size_type_mod - 1) % size_type_mod
      = e.m_shape.getD 0 0 - 1 := by
    rw [show e.m_shape.getD 0 0 + size_type_mod - 1
        = (e.m_shape.getD 0 0 - 1) + size_type_mod by omega, Nat.add_mod_right]
    exact Nat.mod_eq_of_lt (by omega)
  refine ⟨⟨rfl, ?_⟩, ⟨h, ?_⟩, ?_, ?_⟩
  · simp only [extent1.back, extent1.data, extent1.shape, hback]
  · simp only [extent1.shape, extent1.size]
    omega
  · unfold extent1.at_
    rw [if_neg (not_not_intro (by omega))]
    rfl
  · unfold extent1.at_
    simp only [extent1.size]
    rw [if_neg (not_not_intro (by omega))]
    simp only [extent1.operator_index, extent1.back, hback]

/-- Witness of C15 on row 1 of the 3 by 4 view: `front()` is the element at offset 4,
`back()` the element at offset 7, the results of `at(0)` and `at(3)`. -/
theorem C15_front_back_witness :
    extent1.front row1 = 4 ∧ extent1.back row1 = 7 ∧
      extent1.at_ row1 0 = .ok (extent1.front row1) ∧
      extent1.at_ row1 (extent1.size row1 - 1) = .ok (extent1.back row1) :=
  have h := C15_front_back row1 (by decide)
  ⟨h.1.1, h.1.2, h.2.2.1, h.2.2.2⟩

/-! ## Checked chains and tiling -/

theorem getD_drop_one (l : List Nat) (k : Nat) : (l.drop 1).getD k 0 = l.getD (k + 1) 0 := by
  simp [List.getD_eq_getElem?_getD, Nat.add_comm]

theorem at_chain_ok {T : Type} (N : Nat) (hN : 1 ≤ N) (v : extent T N) (idx : List Nat)
    (hidx : ∀ k, k < N → idx.getD k 0 < v.m_shape.getD k 0) :
    at_chain N v idx = .ok (subscript N v idx) := by
  induction N generalizing idx with
  | zero => omega
  | succ D ih =>
    cases D with
    | zero =>
      have h0 := hidx 0 (by omega)
      simp only [at_chain, subscript, extent1.at_]
      rw [if_neg (not_not_intro h0)]
    | succ D =>
      have h0 := hidx 0 (by omega)
      have hat : extent.at_ v (idx.getD 0 0) = .ok (v.operator_index (idx.getD 0 0)) := by
        unfold extent.at_
        rw [if_neg (not_not_intro h0)]
      rw [at_chain, hat, subscript]
      apply ih (by omega)
      intro k hk
      rw [operator_index_shape, getD_drop_one, getD_drop_one]
      exact hidx (k + 1) (by omega)

theorem at_chain_in_range {T : Type} (N : Nat) (hN : 1 ≤ N) (v : extent T N) (idx : List Nat)
    (r : Nat) (h : at_chain N v idx = .ok r) :
    ∀ k, k < N → idx.getD k 0 < v.m_shape.getD k 0 := by
  induction N generalizing idx with
  | zero => omega
  | succ D ih =>
    cases D with
    | zero =>
      intro k hk
      have hk0 : k = 0 := by omega
      subst hk0
      by_contra hc
      simp only [at_chain, extent1.at_] at h
      rw [if_pos hc] at h
      cases h
    | succ D =>
      by_cases h0 : idx.getD 0 0 < v.m_shape.getD 0 0
      · have hat : extent.at_ v (idx.getD 0 0) = .ok (v.operator_index (idx.getD 0 0)) := by
          unfold extent.at_
          rw [if_neg (not_not_intro h0)]
        rw [at_chain, hat] at h
        have hrec := ih (by omega) (v.operator_index (idx.getD 0 0)) (idx.drop 1) h
        intro k hk
        cases k with
        | zero => exact h0
        | succ k =>
          have := hrec k (by omega)
          rw [operator_index_shape, getD_drop_one, getD_drop_one] at this
          exact this
      · have hat : extent.at_ v (idx.getD 0 0) = .error .out_of_range := by
          unfold extent.at_
          rw [if_pos h0]
        rw [at_chain, hat] at h
        cases h

/-- C17: checked access never leaves the view's block. For an `N`-dimensional view
`v` whose extent product fits in `size_type` and an index tuple, the chain
`v.at(i0).at(i1)...at(i(N-1))` returns normally exactly when every `ik < shape[k]`,
and then the element reached is at flat offset
`sum over k of ik * product(shape[k+1..N))` from `v.data()`, an offset strictly less
than `v.flat_size()`. -/
theorem C17_at_chain_in_block {T : Type} {N : Nat} (hN : 1 ≤ N) (v : extent T N)
    (hfit : fits v) (idx : List Nat) (_hlen : idx.length = N) :
    ((∃ r, at_chain N v idx = .ok r) ↔ ∀ k, k < N → idx.getD k 0 < v.shape.getD k 0) ∧
    (∀ r, at_chain N v idx = .ok r →
      r = v.data + flat_offset v.shape idx ∧ flat_offset v.shape idx < flat_size v) := by
  constructor
  · constructor
    · rintro ⟨r, hr⟩
      exact at_chain_in_range N hN v idx r hr
    · intro hidx
      exact ⟨_, at_chain_ok N hN v idx hidx⟩
  · intro r hr
    have hidx := at_chain_in_range N hN v idx r hr
    rw [at_chain_ok N hN v idx hidx] at hr
    injection hr with hr
    constructor
    · rw [← hr]
      exact subscript_flat_offset N hN v hfit idx hidx
    · rw [flat_size_fits hN v hfit]
      apply flat_offset_lt
      intro k hk
      exact hidx k (by rw [← v.shape_length]; exact hk)

/-- Witness of C17 on the 3 by 4 view: `v.at(2).at(3)` returns the element at flat
offset 11, below `flat_size() == 12`. -/
theorem C17_at_chain_in_block_witness :
    at_chain 2 obj34 [2, 3] = .ok 11 ∧
      (11 = obj34.data + flat_offset obj34.shape [2, 3] ∧
        flat_offset obj34.shape [2, 3] < flat_size obj34) :=
  ⟨rfl, (C17_at_chain_in_block (by decide) obj34 (by decide) [2, 3] rfl).2 11 rfl⟩

/-- C18: children tile the parent block. For a view `v` of dimension `N > 1` whose
extent product fits in `size_type` and `pos < v.size()`, with
`c = v[pos].flat_size()`: `c * v.size() == v.flat_size()`, the child starts at
`v.data() + pos * c`, its range `[pos * c, (pos + 1) * c)` lies inside
`[0, v.flat_size())`, every child has the same flat size, and the ranges of `v[i]`
and `v[j]` have no offset in common when `i != j`. -/
theorem C18_children_tile {T : Type} {N : Nat} (hN : 1 < N) (v : extent T N) (hfit : fits v)
    (pos : Nat) (hpos : pos < v.size) :
    flat_size (v.operator_index pos) * v.size = flat_size v ∧
    (v.operator_index pos).m_data = v.data + pos * flat_size (v.operator_index pos) ∧
    (pos + 1) * flat_size (v.operator_index pos) ≤ flat_size v ∧
    (∀ i j, i < v.size → j < v.size → i ≠ j →
      flat_size (v.operator_index i) = flat_size (v.operator_index pos) ∧
      flat_size (v.operator_index j) = flat_size (v.operator_index pos) ∧
      ∀ x, ¬ ((i * flat_size (v.operator_index i) ≤ x ∧
                x < (i + 1) * flat_size (v.operator_index i)) ∧
              (j * flat_size (v.operator_index j) ≤ x ∧
                x < (j + 1) * flat_size (v.operator_index j)))) := by
  obtain ⟨D, rfl⟩ : ∃ D, N = D + 2 := ⟨N - 2, by omega⟩
  have h0 : 0 < v.m_shape.getD 0 0 := by
    simp only [extent.size] at hpos
    omega
  have hc : ∀ i, flat_size (v.operator_index i) = (v.m_shape.drop 1).prod :=
    fun i => child_flat_size v hfit h0 i
  have hflat : flat_size v = v.m_shape.getD 0 0 * (v.m_shape.drop 1).prod := by
    rw [flat_size_fits (by omega) v hfit]
    conv_lhs => rw [shape_cons v, List.prod_cons]
  simp only [extent.size] at hpos ⊢
  refine ⟨?_, ?_, ?_, ?_⟩
  · rw [hc, hflat, Nat.mul_comm]
  · rw [hc, operator_index_data]
    simp only [show D + 2 - 1 = D + 1 by omega, extent.data]
    rw [child_offset v hfit pos hpos]
  · rw [hc, hflat]
    exact Nat.mul_le_mul_right _ hpos
  · intro i j _ _ hne
    refine ⟨by rw [hc, hc], by rw [hc, hc], ?_⟩
    rw [hc, hc]
    rintro x ⟨⟨h1, h2⟩, ⟨h3, h4⟩⟩
    rcases Nat.lt_or_gt_of_ne hne with hlt | hlt
    · have : (i + 1) * (v.m_shape.drop 1).prod ≤ j * (v.m_shape.drop 1).prod :=
        Nat.mul_le_mul_right _ hlt
      omega
    · have : (j + 1) * (v.m_shape.drop 1).prod ≤ i * (v.m_shape.drop 1).prod :=
        Nat.mul_le_mul_right _ hlt
      omega

/-- Witness of C18 on the 3 by 4 view: row 1 has flat size 4, `4 * 3 == 12`, it
starts at offset 4 and its range ends at 8, inside the 12 elements. -/
theorem C18_children_tile_witness :
    flat_size (obj34.operator_index 1) * obj34.size = flat_size obj34 ∧
    (obj34.operator_index 1).m_data = obj34.data + 1 * flat_size (obj34.operator_index 1) ∧
    (1 + 1) * flat_size (obj34.operator_index 1) ≤ flat_size obj34 :=
  have h := C18_children_tile (by decide) obj34 (by decide) 1 (by decide)
  ⟨h.1, h.2.1, h.2.2.1⟩

/-! ## Equality by children, equality as an equivalence -/

theorem operator_eq_by_children {T : Type} [BEq T] {D : Nat} (a b : extent T (D + 2))
    (mem : Mem T) (hs : a.m_shape = b.m_shape) (hfit : fits a) :
    operator_eq a b mem = true ↔
      ∀ i, i < a.m_shape.getD 0 0 →
        operator_eq (a.operator_index i) (b.operator_index i) mem = true := by
  have hfitb : fits b := by
    unfold fits
    rw [← hs]
    exact hfit
  have hflat : flat_size a = a.m_shape.getD 0 0 * (a.m_shape.drop 1).prod := by
    rw [flat_size_fits (by omega) a hfit]
    conv_lhs => rw [shape_cons a, List.prod_cons]
  have hda : ∀ i, i < a.m_shape.getD 0 0 →
      (a.operator_index i).m_data = a.m_data + i * (a.m_shape.drop 1).prod := by
    intro i hi
    rw [operator_index_data]
    simp only [show D + 2 - 1 = D + 1 by omega]
    rw [child_offset a hfit i hi]
  have hdb : ∀ i, i < a.m_shape.getD 0 0 →
      (b.operator_index i).m_data = b.m_data + i * (a.m_shape.drop 1).prod := by
    intro i hi
    rw [operator_index_data]
    simp only [show D + 2 - 1 = D + 1 by omega]
    rw [child_offset b hfitb i (by rw [← hs]; exact hi), hs]
  rw [operator_eq_iff]
  constructor
  · rintro ⟨_, hall⟩ i hi
    rw [operator_eq_iff, operator_index_shape, operator_index_shape, hs]
    refine ⟨rfl, ?_⟩
    intro k hk
    rw [child_flat_size a hfit (by omega) i] at hk
    rw [hda i hi, hdb i hi, Nat.add_assoc, Nat.add_assoc]
    apply hall
    rw [hflat]
    have : (i + 1) * (a.m_shape.drop 1).prod
        ≤ a.m_shape.getD 0 0 * (a.m_shape.drop 1).prod := Nat.mul_le_mul_right _ hi
    rw [Nat.add_mul] at this
    omega
  · intro hall
    refine ⟨hs, ?_⟩
    intro j hj
    rw [hflat] at hj
    have hE : 0 < (a.m_shape.drop 1).prod := by
      rcases Nat.eq_zero_or_pos (a.m_shape.drop 1).prod with h0 | h0
      · rw [h0] at hj
        omega
      · exact h0
    have hi : j / (a.m_shape.drop 1).prod < a.m_shape.getD 0 0 :=
      Nat.div_lt_of_lt_mul (by rw [Nat.mul_comm]; exact hj)
    have hk : j % (a.m_shape.drop 1).prod < (a.m_shape.drop 1).prod := Nat.mod_lt _ hE
    have hchild := (operator_eq_iff _ _ mem).mp (hall _ hi)
    have hs0 : 0 < a.m_shape.getD 0 0 := Nat.lt_of_le_of_lt (Nat.zero_le _) hi
    have hel := hchild.2 (j % (a.m_shape.drop 1).prod)
      (by rw [child_flat_size a hfit hs0]; exact hk)
    rw [hda _ hi, hdb _ hi, Nat.add_assoc, Nat.add_assoc] at hel
    have hj' : j / (a.m_shape.drop 1).prod * (a.m_shape.drop 1).prod
        + j % (a.m_shape.drop 1).prod = j := by
      rw [Nat.mul_comm]
      exact Nat.div_add_mod j _
    rw [hj'] at hel
    exact hel

/-- C16: equality reduces to the next-lower dimension. For two views `a` and `b` of
dimension `N = D + 2 > 1` with element-wise equal shapes whose extent product fits
in `size_type`, the flat comparison `a == b` is true if and only if `a[i] == b[i]`
is true for every `i < a.size()`: it returns what the child-by-child definition
returns. -/
theorem C16_eq_reduces_to_children {T : Type} [BEq T] {D : Nat} (a b : extent T (D + 2))
    (mem : Mem T) (hshape : ∀ k, k < D + 2 → a.shape.getD k 0 = b.shape.getD k 0)
    (hfit : fits a) :
    (operator_eq a b mem = true ↔
      ∀ i, i < a.size → operator_eq (a.operator_index i) (b.operator_index i) mem = true) ∧
    operator_eq a b mem = operator_eq_children a b mem := by
  have hs := shape_eq_of_elementwise a b hshape
  have hiff := operator_eq_by_children a b mem hs hfit
  refine ⟨hiff, ?_⟩
  rw [Bool.eq_iff_iff, hiff]
  unfold operator_eq_children extent.size
  rw [List.all_eq_true]
  constructor
  · intro h i hi
    exact h i (List.mem_range.mp hi)
  · intro h i hi
    exact h i (List.mem_range.mpr hi)

/-- Witness of C16: the 3 by 4 views over `dataA` and over `dataB` of the assignment
test compare like their rows do. -/
theorem C16_eq_reduces_to_children_witness :
    (operator_eq obj34 objB34 dataAB = true ↔
      ∀ i, i < obj34.size →
        operator_eq (obj34.operator_index i) (objB34.operator_index i) dataAB = true) ∧
    operator_eq obj34 objB34 dataAB = operator_eq_children obj34 objB34 dataAB :=
  C16_eq_reduces_to_children obj34 objB34 dataAB (by decide) (by decide)

/-- C19: `operator==` on views of the same dimension is an equivalence relation when
element equality is one: `a == a` is true, `a == b` implies `b == a`, and `a == b`
together with `b == c` implies `a == c`. -/
theorem C19_operator_eq_equivalence {T : Type} [BEq T] {N : Nat}
    (hrefl : ∀ x : T, (x == x) = true)
    (hsymm : ∀ x y : T, (x == y) = true → (y == x) = true)
    (htrans : ∀ x y z : T, (x == y) = true → (y == z) = true → (x == z) = true)
    (a b c : extent T N) (mem : Mem T) :
    operator_eq a a mem = true ∧
    (operator_eq a b mem = true → operator_eq b a mem = true) ∧
    (operator_eq a b mem = true → operator_eq b c mem = true →
      operator_eq a c mem = true) := by
  refine ⟨?_, ?_, ?_⟩
  · rw [operator_eq_iff]
    exact ⟨rfl, fun i _ => hrefl _⟩
  · intro hab
    rw [operator_eq_iff] at hab ⊢
    refine ⟨hab.1.symm, ?_⟩
    intro i hi
    rw [← flat_size_congr a b hab.1] at hi
    exact hsymm _ _ (hab.2 i hi)
  · intro hab hbc
    rw [operator_eq_iff] at hab hbc ⊢
    refine ⟨hab.1.trans hbc.1, ?_⟩
    intro i hi
    exact htrans _ _ _ (hab.2 i hi) (hbc.2 i (by rw [← flat_size_congr a b hab.1]; exact hi))

/-- Witness of C19 on integer elements: the 3 by 4 view of the tests equals itself,
and equality with it is symmetric and transitive. -/
theorem C19_operator_eq_equivalence_witness :
    operator_eq obj34 obj34 data12 = true ∧
    (operator_eq obj34 obj43 data12 = true → operator_eq obj43 obj34 data12 = true) ∧
    (operator_eq obj34 obj43 data12 = true → operator_eq obj43 obj34 data12 = true →
      operator_eq obj34 obj34 data12 = true) :=
  C19_operator_eq_equivalence (fun x => beq_self_eq_true x)
    (fun x y h => by rw [beq_iff_eq] at h ⊢; exact h.symm)
    (fun x y z h1 h2 => by rw [beq_iff_eq] at h1 h2 ⊢; exact h1.trans h2)
    obj34 obj43 obj34 data12

end vec.detail
